import Mathlib

/-!
Verification of the minitradutor translation-contract pipeline.

Shallow embedding of the repository's core modules:
  * `utils/hash.ts`   — SHA-256 based id generation (`generateHash`, `generateContractId`)
  * `utils/time.ts`   — timestamps (modelled as an explicit clock value)
  * `providers/types.ts` — the data model (contracts, envelopes, requests, providers)
  * `providers/mock.ts`  — the deterministic mock provider used by the tests
  * `ledger.ts`       — envelope validation and the append-only NDJSON ledger
  * `contract.ts`     — the contract-module builder/validator/persistence
  * `translate.ts`    — the pipeline entry point `translateRequest`

JavaScript strings are modelled as `List Char`, JS numbers that flow through the
pipeline (confidence values) as exact decimal literals (`JsNumber`), file contents
as `Option (List Char)` (`none` = the file does not exist), and the impure parts
(wall clock, provider calls, file writes) as explicit state passing over `World`.
-/

set_option maxRecDepth 8192

/-- JS strings are sequences of characters. -/
abbrev Str := List Char

/-- The newline character (written via `Char.ofNat` so that serialized text can be
built without escape sequences). -/
def nlChar : Char := Char.ofNat 10

/-- The backslash character. -/
def bsChar : Char := Char.ofNat 92

/-- The double-quote character. -/
def dqChar : Char := Char.ofNat 34

/-- The apostrophe character. -/
def apChar : Char := Char.ofNat 39

/-- The underscore character. -/
def usChar : Char := Char.ofNat 95

-- ===========================================================================
-- utils/hash.ts — SHA-256 (crypto.subtle.digest) over the UTF-8 encoding
-- ===========================================================================

/-- 2^32, the word modulus of SHA-256 arithmetic. -/
def w32 : Nat := 4294967296

/-- Truncation to a 32-bit word. -/
def m32 (x : Nat) : Nat := x % w32

/-- 32-bit right rotation. -/
def rotr32 (n x : Nat) : Nat := m32 ((x >>> n) ||| (x <<< (32 - n)))

/-- 32-bit bitwise complement. -/
def not32 (x : Nat) : Nat := x ^^^ (w32 - 1)

/-- SHA-256 small sigma 0. -/
def ssig0 (x : Nat) : Nat := (rotr32 7 x) ^^^ (rotr32 18 x) ^^^ (x >>> 3)

/-- SHA-256 small sigma 1. -/
def ssig1 (x : Nat) : Nat := (rotr32 17 x) ^^^ (rotr32 19 x) ^^^ (x >>> 10)

/-- SHA-256 big sigma 0. -/
def bsig0 (x : Nat) : Nat := (rotr32 2 x) ^^^ (rotr32 13 x) ^^^ (rotr32 22 x)

/-- SHA-256 big sigma 1. -/
def bsig1 (x : Nat) : Nat := (rotr32 6 x) ^^^ (rotr32 11 x) ^^^ (rotr32 25 x)

/-- SHA-256 choose function. -/
def chFn (x y z : Nat) : Nat := (x &&& y) ^^^ ((not32 x) &&& z)

/-- SHA-256 majority function. -/
def majFn (x y z : Nat) : Nat := (x &&& y) ^^^ (x &&& z) ^^^ (y &&& z)

/-- The 64 SHA-256 round constants. -/
def sha256K : List Nat :=
  [1116352408, 1899447441, 3049323471, 3921009573, 961987163, 1508970993,
   2453635748, 2870763221, 3624381080, 310598401, 607225278, 1426881987,
   1925078388, 2162078206, 2614888103, 3248222580, 3835390401, 4022224774,
   264347078, 604807628, 770255983, 1249150122, 1555081692, 1996064986,
   2554220882, 2821834349, 2952996808, 3210313671, 3336571891, 3584528711,
   113926993, 338241895, 666307205, 773529912, 1294757372, 1396182291,
   1695183700, 1986661051, 2177026350, 2456956037, 2730485921, 2820302411,
   3259730800, 3345764771, 3516065817, 3600352804, 4094571909, 275423344,
   430227734, 506948616, 659060556, 883997877, 958139571, 1322822218,
   1537002063, 1747873779, 1955562222, 2024104815, 2227730452, 2361852424,
   2428436474, 2756734187, 3204031479, 3329325298]

/-- The eight 32-bit working registers of the SHA-256 compression function. -/
structure Hash8 where
  a : Nat
  b : Nat
  c : Nat
  d : Nat
  e : Nat
  f : Nat
  g : Nat
  h : Nat
deriving Repr, DecidableEq

/-- The SHA-256 initial hash value. -/
def sha256H0 : Hash8 :=
  ⟨1779033703,
   3144134277,
   1013904242,
   2773480762,
   1359893119,
   2600822924,
   528734635,
   1541459225⟩

/-- One step of the message-schedule extension; `ws` holds the schedule so far in
reverse order (most recent word first). -/
def schedStep (ws : List Nat) : Nat :=
  m32 (ssig1 (ws.getD 1 0) + ws.getD 6 0 + ssig0 (ws.getD 14 0) + ws.getD 15 0)

/-- Extends the reversed message schedule by `n` words. -/
def schedExtend : Nat → List Nat → List Nat
  | 0, ws => ws
  | n + 1, ws => schedExtend n (schedStep ws :: ws)

/-- One round of the SHA-256 compression function on the pair (round constant, schedule word). -/
def compressStep (st : Hash8) (kw : Nat × Nat) : Hash8 :=
  let t1 := m32 (st.h + bsig1 st.e + chFn st.e st.f st.g + kw.1 + kw.2)
  let t2 := m32 (bsig0 st.a + majFn st.a st.b st.c)
  ⟨m32 (t1 + t2), st.a, st.b, st.c, m32 (st.d + t1), st.e, st.f, st.g⟩

/-- Adds two register files word-wise modulo 2^32. -/
def addHash (x y : Hash8) : Hash8 :=
  ⟨m32 (x.a + y.a), m32 (x.b + y.b), m32 (x.c + y.c), m32 (x.d + y.d),
   m32 (x.e + y.e), m32 (x.f + y.f), m32 (x.g + y.g), m32 (x.h + y.h)⟩

/-- Groups a byte list into big-endian 32-bit words (four bytes per word). -/
def bytesToWords : List Nat → List Nat
  | b0 :: b1 :: b2 :: b3 :: rest =>
      (b0 * 16777216 + b1 * 65536 + b2 * 256 + b3) :: bytesToWords rest
  | _ => []

/-- Groups a word list into 16-word message blocks. -/
def wordsToBlocks : List Nat → List (List Nat)
  | w0 :: w1 :: w2 :: w3 :: w4 :: w5 :: w6 :: w7 ::
    w8 :: w9 :: w10 :: w11 :: w12 :: w13 :: w14 :: w15 :: rest =>
      [w0, w1, w2, w3, w4, w5, w6, w7, w8, w9, w10, w11, w12, w13, w14, w15]
        :: wordsToBlocks rest
  | _ => []

/-- Compresses a single 16-word block into the running hash state. -/
def compressBlock (st : Hash8) (block : List Nat) : Hash8 :=
  let sched := (schedExtend 48 block.reverse).reverse
  addHash st ((sha256K.zip sched).foldl compressStep st)

/-- Folds the compression function over all message blocks. -/
def sha256Blocks : Hash8 → List (List Nat) → Hash8
  | st, [] => st
  | st, b :: bs => sha256Blocks (compressBlock st b) bs

/-- SHA-256 padding: append 0x80, zero bytes and the 64-bit big-endian bit length. -/
def sha256Pad (msg : List Nat) : List Nat :=
  let len := msg.length
  let zeros := (119 - len % 64) % 64
  let bits := 8 * len
  msg ++ 128 :: List.replicate zeros 0 ++
    [bits >>> 56 % 256, bits >>> 48 % 256, bits >>> 40 % 256, bits >>> 32 % 256,
     bits >>> 24 % 256, bits >>> 16 % 256, bits >>> 8 % 256, bits % 256]

/-- Splits a 32-bit word into four big-endian bytes. -/
def wordToBytes (w : Nat) : List Nat :=
  [w / 16777216 % 256, w / 65536 % 256, w / 256 % 256, w % 256]

/-- The 32 digest bytes of a final hash state. -/
def digestBytes (st : Hash8) : List Nat :=
  wordToBytes st.a ++ wordToBytes st.b ++ wordToBytes st.c ++ wordToBytes st.d ++
  wordToBytes st.e ++ wordToBytes st.f ++ wordToBytes st.g ++ wordToBytes st.h

/-- SHA-256 of a byte message, as the list of 32 digest bytes. -/
def sha256Bytes (msg : List Nat) : List Nat :=
  digestBytes (sha256Blocks sha256H0 (wordsToBlocks (bytesToWords (sha256Pad msg))))

/-- UTF-8 encoding of one character (`TextEncoder`). -/
def utf8Encode (c : Char) : List Nat :=
  let n := c.toNat
  if n < 128 then [n]
  else if n < 2048 then [192 + n / 64, 128 + n % 64]
  else if n < 65536 then [224 + n / 4096, 128 + n / 64 % 64, 128 + n % 64]
  else [240 + n / 262144, 128 + n / 4096 % 64, 128 + n / 64 % 64, 128 + n % 64]

/-- UTF-8 encoding of a string (`TextEncoder.encode`). -/
def utf8Bytes (s : Str) : List Nat := s.flatMap utf8Encode

/-- The sixteen lowercase hex digit characters, as `Number.prototype.toString(16)` uses. -/
def hexDigitChar (n : Nat) : Char :=
  match n with
  | 0 => '0' | 1 => '1' | 2 => '2' | 3 => '3' | 4 => '4' | 5 => '5' | 6 => '6' | 7 => '7'
  | 8 => '8' | 9 => '9' | 10 => 'a' | 11 => 'b' | 12 => 'c' | 13 => 'd' | 14 => 'e'
  | _ => 'f'

/-- `b.toString(16).padStart(2, "0")` for a byte `b < 256`. -/
def byteToHex (b : Nat) : Str := [hexDigitChar (b / 16 % 16), hexDigitChar (b % 16)]

/-- `generateHash` from `utils/hash.ts`: the lowercase-hex SHA-256 of the UTF-8
encoding of the input string. -/
def generateHash (input : Str) : Str := (sha256Bytes (utf8Bytes input)).flatMap byteToHex

-- ===========================================================================
-- Decimal digit printing (Number.prototype.toString for naturals)
-- ===========================================================================

/-- Little-endian base-10 digit extraction, with explicit fuel so that the
definition is structurally recursive (the fuel `n` itself always suffices). -/
def natDigitsAux : Nat → Nat → List Nat
  | 0, _ => []
  | fuel + 1, n => if n = 0 then [] else n % 10 :: natDigitsAux fuel (n / 10)

/-- Little-endian base-10 digits of a natural number (empty for 0). -/
def natDigits (n : Nat) : List Nat := natDigitsAux n n

/-- The decimal digit character for `d % 10`. -/
def decDigitChar (d : Nat) : Char := Char.ofNat (48 + d % 10)

/-- `n.toString()` for a JS number holding the natural `n`. -/
def printNat (n : Nat) : Str :=
  if n = 0 then [ '0' ] else ((natDigits n).reverse).map decDigitChar

/-- `generateContractId` from `utils/hash.ts`: hashes `content + "_" + Date.now()`
and prepends `"trans_"` to the first six hex characters.  The wall-clock reading
`nowMs` is passed explicitly. -/
def generateContractId (content : Str) (nowMs : Nat) : Str :=
  ("trans_").data ++ (generateHash (content ++ usChar :: printNat nowMs)).take 6

-- ===========================================================================
-- providers/types.ts — the data model
-- ===========================================================================

/-- A JS number that flows through the pipeline, as an exact decimal literal:
sign, integer part, and the fractional digits. -/
structure JsNumber where
  neg : Bool
  ip : Nat
  frac : List (Fin 10)
deriving Repr, DecidableEq

/-- Value of a fractional digit list, e.g. `[9, 5]` is `0.95`. -/
def fracVal : List (Fin 10) → ℚ
  | [] => 0
  | d :: ds => (d.val + fracVal ds) / 10

/-- Numeric value of a `JsNumber`. -/
def JsNumber.toRat (n : JsNumber) : ℚ :=
  if n.neg then -(n.ip + fracVal n.frac) else n.ip + fracVal n.frac

/-- `JSON.stringify` / `toString` for a `JsNumber` decimal literal. -/
def printJsNumber (n : JsNumber) : Str :=
  (if n.neg then [ '-' ] else []) ++ printNat n.ip ++
    (if n.frac.isEmpty then [] else '.' :: n.frac.map (fun d => decDigitChar d.val))

/-- The `method` enumeration from `providers/types.ts`. -/
inductive TranslationMethod where
  | human
  | machine
  | hybrid
deriving Repr, DecidableEq

/-- The JSON string for a translation method. -/
def TranslationMethod.toStr : TranslationMethod → Str
  | .human => ("human").data
  | .machine => ("machine").data
  | .hybrid => ("hybrid").data

/-- `ProvenanceBlock` from `providers/types.ts`. -/
structure ProvenanceBlock where
  timestamp : Str
  tenant_id : Str
  signature : Str
deriving Repr, DecidableEq

/-- `TranslationContract` from `providers/types.ts`; the optional `translator`
field is `none` when absent (`undefined` in JS). -/
structure TranslationContract where
  id : Str
  workflow : Str
  flow : Str
  source_language : Str
  target_language : Str
  source_text : Str
  translated_text : Str
  translator : Option Str
  method : TranslationMethod
  confidence : JsNumber
  provenance : ProvenanceBlock
deriving Repr, DecidableEq

/-- `TranslationContractEnvelope` from `providers/types.ts`. -/
structure TranslationContractEnvelope where
  contract : TranslationContract
deriving Repr, DecidableEq

/-- `TranslationRequestInput` from `providers/types.ts`. -/
structure TranslationRequestInput where
  source_language : Str
  target_language : Str
  source_text : Str
  workflow : Str
  flow : Str
  tenant_id : Str
  method : TranslationMethod
  translator : Option Str
deriving Repr, DecidableEq

/-- JS string truthiness for an optional string: `undefined` and `""` are falsy. -/
def optStrTruthy : Option Str → Bool
  | none => false
  | some s => !s.isEmpty

-- ===========================================================================
-- JSON values (what JSON.parse produces)
-- ===========================================================================

/-- A parsed JSON value.  Numbers are decimal literals. -/
inductive JValue where
  | null : JValue
  | boolVal (b : Bool) : JValue
  | num (n : JsNumber) : JValue
  | str (s : Str) : JValue
  | arr (elems : List JValue) : JValue
  | obj (members : List (Str × JValue)) : JValue
deriving Repr

/-- The opening brace character. -/
def obChar : Char := Char.ofNat 123

/-- The closing brace character. -/
def cbChar : Char := Char.ofNat 125

-- ===========================================================================
-- JSON.stringify on the pipeline's envelopes
-- ===========================================================================

/-- `JSON.stringify`'s escaping of a single string character. -/
def escapeChar (c : Char) : Str :=
  if c = dqChar then [bsChar, dqChar]
  else if c = bsChar then [bsChar, bsChar]
  else if c = nlChar then [bsChar, 'n']
  else if c = Char.ofNat 9 then [bsChar, 't']
  else if c = Char.ofNat 13 then [bsChar, 'r']
  else if c = Char.ofNat 8 then [bsChar, 'b']
  else if c = Char.ofNat 12 then [bsChar, 'f']
  else if c.toNat < 32 then
    [bsChar, 'u', '0', '0', hexDigitChar (c.toNat / 16 % 16), hexDigitChar (c.toNat % 16)]
  else [c]

/-- `JSON.stringify`'s escaping of a string's contents. -/
def escapeStr (s : Str) : Str := s.flatMap escapeChar

/-- A JSON string literal: quote, escaped contents, quote. -/
def strLit (s : Str) : Str := dqChar :: (escapeStr s ++ [dqChar])

/-- `JSON.stringify` of a provenance block (field order as in `translate.ts`). -/
def stringifyProvenance (p : ProvenanceBlock) : Str :=
  obChar :: (strLit ("timestamp").data ++ ':' :: strLit p.timestamp ++ ',' ::
    strLit ("tenant_id").data ++ ':' :: strLit p.tenant_id ++ ',' ::
    strLit ("signature").data ++ ':' :: strLit p.signature ++ [cbChar])

/-- `JSON.stringify` of a contract built by `translate.ts`: compact JSON in the
object-literal field order of its `buildContract`; a `translator` holding
`undefined` (`none`) is omitted by `JSON.stringify`. -/
def stringifyContract (c : TranslationContract) : Str :=
  obChar :: (strLit ("id").data ++ ':' :: strLit c.id ++ ',' ::
    strLit ("workflow").data ++ ':' :: strLit c.workflow ++ ',' ::
    strLit ("flow").data ++ ':' :: strLit c.flow ++ ',' ::
    strLit ("source_language").data ++ ':' :: strLit c.source_language ++ ',' ::
    strLit ("target_language").data ++ ':' :: strLit c.target_language ++ ',' ::
    strLit ("source_text").data ++ ':' :: strLit c.source_text ++ ',' ::
    strLit ("translated_text").data ++ ':' :: strLit c.translated_text ++ ',' ::
    (match c.translator with
     | none => []
     | some t => strLit ("translator").data ++ ':' :: strLit t ++ [ ',' ]) ++
    strLit ("method").data ++ ':' :: strLit c.method.toStr ++ ',' ::
    strLit ("confidence").data ++ ':' :: printJsNumber c.confidence ++ ',' ::
    strLit ("provenance").data ++ ':' :: stringifyProvenance c.provenance ++ [cbChar])

/-- `JSON.stringify(envelope)`: the one-line NDJSON serialization of an envelope. -/
def stringifyEnvelope (e : TranslationContractEnvelope) : Str :=
  obChar :: (strLit ("contract").data ++ ':' :: stringifyContract e.contract ++ [cbChar])

-- ===========================================================================
-- The JSON value a parse of those lines produces
-- ===========================================================================

/-- The JSON object members of a provenance block. -/
def provenanceMembers (p : ProvenanceBlock) : List (Str × JValue) :=
  [(("timestamp").data, .str p.timestamp),
   (("tenant_id").data, .str p.tenant_id),
   (("signature").data, .str p.signature)]

/-- The JSON object members of a contract serialized by `translate.ts`. -/
def contractMembers (c : TranslationContract) : List (Str × JValue) :=
  [(("id").data, .str c.id),
   (("workflow").data, .str c.workflow),
   (("flow").data, .str c.flow),
   (("source_language").data, .str c.source_language),
   (("target_language").data, .str c.target_language),
   (("source_text").data, .str c.source_text),
   (("translated_text").data, .str c.translated_text)] ++
  (match c.translator with
   | none => []
   | some t => [(("translator").data, .str t)]) ++
  [(("method").data, .str c.method.toStr),
   (("confidence").data, .num c.confidence),
   (("provenance").data, .obj (provenanceMembers c.provenance))]

/-- The JSON value of a serialized contract. -/
def encodeContract (c : TranslationContract) : JValue := .obj (contractMembers c)

/-- The JSON value of a serialized envelope. -/
def encodeEnvelope (e : TranslationContractEnvelope) : JValue :=
  .obj [(("contract").data, encodeContract e.contract)]

/-- Member lookup in a parsed JSON object (first match, as JS property access on
objects built by `JSON.parse`, which keeps the last duplicate — duplicates never
arise in this pipeline). -/
def jLookup (ms : List (Str × JValue)) (k : Str) : Option JValue :=
  match ms with
  | [] => none
  | (k2, v) :: rest => if k2 = k then some v else jLookup rest k

/-- Reading back a provenance block from a parsed JSON value (per the
`ProvenanceBlock` TypeScript type). -/
def decodeProvenance (v : JValue) : Option ProvenanceBlock :=
  match v with
  | .obj ms =>
    match jLookup ms (("timestamp").data), jLookup ms (("tenant_id").data),
          jLookup ms (("signature").data) with
    | some (.str ts), some (.str te), some (.str si) =>
        some { timestamp := ts, tenant_id := te, signature := si }
    | _, _, _ => none
  | _ => none

/-- The translation method denoted by a JSON string, if any. -/
def decodeMethod (s : Str) : Option TranslationMethod :=
  if s = ("human").data then some .human
  else if s = ("machine").data then some .machine
  else if s = ("hybrid").data then some .hybrid
  else none

/-- Reading back a contract from a parsed JSON value (per the
`TranslationContract` TypeScript type). -/
def decodeContract (v : JValue) : Option TranslationContract :=
  match v with
  | .obj ms =>
    match jLookup ms (("id").data), jLookup ms (("workflow").data),
          jLookup ms (("flow").data), jLookup ms (("source_language").data),
          jLookup ms (("target_language").data), jLookup ms (("source_text").data),
          jLookup ms (("translated_text").data), jLookup ms (("method").data),
          jLookup ms (("confidence").data), jLookup ms (("provenance").data) with
    | some (.str i), some (.str w), some (.str f), some (.str sl), some (.str tl),
      some (.str st), some (.str tt), some (.str me), some (.num co), some pv =>
      match decodeMethod me, decodeProvenance pv with
      | some m, some p =>
        match jLookup ms (("translator").data) with
        | none => some { id := i, workflow := w, flow := f, source_language := sl,
                         target_language := tl, source_text := st, translated_text := tt,
                         translator := none, method := m, confidence := co, provenance := p }
        | some (.str tr) =>
            some { id := i, workflow := w, flow := f, source_language := sl,
                   target_language := tl, source_text := st, translated_text := tt,
                   translator := some tr, method := m, confidence := co, provenance := p }
        | some _ => none
      | _, _ => none
    | _, _, _, _, _, _, _, _, _, _ => none
  | _ => none

/-- Reading back an envelope from a parsed JSON value. -/
def decodeEnvelope (v : JValue) : Option TranslationContractEnvelope :=
  match v with
  | .obj ms =>
    match jLookup ms (("contract").data) with
    | some cv => (decodeContract cv).map (fun c => { contract := c })
    | none => none
  | _ => none

-- ===========================================================================
-- The structural validation layer (schema.json is not among the sources)
-- ===========================================================================

/-- Whether an object member is a JSON string. -/
def strMember (ms : List (Str × JValue)) (k : Str) : Bool :=
  match jLookup ms k with
  | some (.str _) => true
  | _ => false

/-- Modelled from the spec: `schema.json` — loaded at runtime by `ledger.ts` and
`contract.ts` and compiled with AJV — is not among the provided sources.  This
predicate implements the structural layer of validation as §4.3/§3 describe it:
every contract field present with the correct primitive type, `method` constrained
to its enum, `confidence` numeric, `translator` an optional string, and the
provenance sub-object with its three string fields. -/
def schemaOkContract (v : JValue) : Bool :=
  match v with
  | .obj ms =>
    strMember ms (("id").data) && strMember ms (("workflow").data) &&
    strMember ms (("flow").data) && strMember ms (("source_language").data) &&
    strMember ms (("target_language").data) && strMember ms (("source_text").data) &&
    strMember ms (("translated_text").data) &&
    (match jLookup ms (("method").data) with
     | some (.str s) => (decodeMethod s).isSome
     | _ => false) &&
    (match jLookup ms (("confidence").data) with
     | some (.num _) => true
     | _ => false) &&
    (match jLookup ms (("translator").data) with
     | none => true
     | some (.str _) => true
     | some _ => false) &&
    (match jLookup ms (("provenance").data) with
     | some (.obj pms) =>
        strMember pms (("timestamp").data) && strMember pms (("tenant_id").data) &&
        strMember pms (("signature").data)
     | _ => false)
  | _ => false

/-- Modelled from the spec: the envelope schema per §3 — a JSON object whose
`contract` member satisfies the contract schema. -/
def schemaOkEnvelope (v : JValue) : Bool :=
  match v with
  | .obj ms =>
    match jLookup ms (("contract").data) with
    | some cv => schemaOkContract cv
    | none => false
  | _ => false

-- ===========================================================================
-- JSON.parse
-- ===========================================================================

/-- JSON insignificant whitespace (also what `String.prototype.trim` strips from
the texts this pipeline produces). -/
def isWsChar (c : Char) : Bool :=
  c = ' ' || c = Char.ofNat 9 || c = nlChar || c = Char.ofNat 13 ||
  c = Char.ofNat 12 || c = Char.ofNat 11

/-- Skips insignificant whitespace. -/
def skipWs (s : Str) : Str := s.dropWhile isWsChar

/-- Value of a hex digit character. -/
def hexVal (c : Char) : Option Nat :=
  if 48 ≤ c.toNat ∧ c.toNat ≤ 57 then some (c.toNat - 48)
  else if 97 ≤ c.toNat ∧ c.toNat ≤ 102 then some (c.toNat - 87)
  else if 65 ≤ c.toNat ∧ c.toNat ≤ 70 then some (c.toNat - 55)
  else none

/-- Parses the body of a JSON string literal (after the opening quote), returning
the decoded contents and the rest of the input after the closing quote.
Surrogate-pair `\u` escapes are not modelled (the serializer never emits them). -/
def parseStringBody : Str → Option (Str × Str)
  | [] => none
  | c :: rest =>
    if c = dqChar then some ([], rest)
    else if c = bsChar then
      match rest with
      | [] => none
      | e :: rest2 =>
        if e = dqChar then (parseStringBody rest2).map (fun p => (dqChar :: p.1, p.2))
        else if e = bsChar then (parseStringBody rest2).map (fun p => (bsChar :: p.1, p.2))
        else if e = '/' then (parseStringBody rest2).map (fun p => ('/' :: p.1, p.2))
        else if e = 'n' then (parseStringBody rest2).map (fun p => (nlChar :: p.1, p.2))
        else if e = 't' then (parseStringBody rest2).map (fun p => (Char.ofNat 9 :: p.1, p.2))
        else if e = 'r' then (parseStringBody rest2).map (fun p => (Char.ofNat 13 :: p.1, p.2))
        else if e = 'b' then (parseStringBody rest2).map (fun p => (Char.ofNat 8 :: p.1, p.2))
        else if e = 'f' then (parseStringBody rest2).map (fun p => (Char.ofNat 12 :: p.1, p.2))
        else if e = 'u' then
          match rest2 with
          | h1 :: h2 :: h3 :: h4 :: rest3 =>
            match hexVal h1, hexVal h2, hexVal h3, hexVal h4 with
            | some a, some b, some c2, some d =>
              let code := 4096 * a + 256 * b + 16 * c2 + d
              if code < 55296 then
                (parseStringBody rest3).map (fun p => (Char.ofNat code :: p.1, p.2))
              else none
            | _, _, _, _ => none
          | _ => none
        else none
    else if c.toNat < 32 then none
    else (parseStringBody rest).map (fun p => (c :: p.1, p.2))

/-- Whether a character is a decimal digit. -/
def isDecDigit (c : Char) : Bool := 48 ≤ c.toNat && c.toNat ≤ 57

/-- The digit denoted by a decimal digit character. -/
def charDigit (c : Char) : Fin 10 := ⟨(c.toNat - 48) % 10, Nat.mod_lt _ (by omega)⟩

/-- Takes the longest prefix of decimal digits. -/
def parseDigits : Str → List (Fin 10) × Str
  | [] => ([], [])
  | c :: rest =>
    if isDecDigit c then
      let p := parseDigits rest
      (charDigit c :: p.1, p.2)
    else ([], c :: rest)

/-- The natural number with the given most-significant-first digits. -/
def natFromDigits (ds : List (Fin 10)) : Nat := ds.foldl (fun a d => 10 * a + d.val) 0

/-- Parses sign-free JSON number digits (integer digits, optional fraction). -/
def parseNumberCore (neg : Bool) (s : Str) : Option (JsNumber × Str) :=
  if (parseDigits s).1.isEmpty then none
  else
    match (parseDigits s).2 with
    | c :: r2 =>
      if c = '.' then
        if (parseDigits r2).1.isEmpty then none
        else some (⟨neg, natFromDigits (parseDigits s).1, (parseDigits r2).1⟩,
          (parseDigits r2).2)
      else some (⟨neg, natFromDigits (parseDigits s).1, []⟩, c :: r2)
    | [] => some (⟨neg, natFromDigits (parseDigits s).1, []⟩, [])

/-- Parses a JSON number token (optional minus, integer digits, optional fraction;
exponents are not modelled — the pipeline never serializes them). -/
def parseNumber (s : Str) : Option (JsNumber × Str) :=
  match s with
  | c :: rest => if c = '-' then parseNumberCore true rest else parseNumberCore false (c :: rest)
  | [] => none

mutual

/-- Parses one JSON value; the fuel bounds the nesting recursion (the entry point
supplies more fuel than any input can consume). -/
def parseValue : Nat → Str → Option (JValue × Str)
  | 0, _ => none
  | fuel + 1, s =>
    match skipWs s with
    | [] => none
    | c :: rest =>
      if c = dqChar then (parseStringBody rest).map (fun p => (JValue.str p.1, p.2))
      else if c = obChar then
        match skipWs rest with
        | c2 :: rest2 =>
          if c2 = cbChar then some (JValue.obj [], rest2)
          else (parseMembers fuel (c2 :: rest2)).map (fun p => (JValue.obj p.1, p.2))
        | [] => none
      else if c = '[' then
        match skipWs rest with
        | c2 :: rest2 =>
          if c2 = ']' then some (JValue.arr [], rest2)
          else (parseElems fuel (c2 :: rest2)).map (fun p => (JValue.arr p.1, p.2))
        | [] => none
      else
        match c :: rest with
        | 't' :: 'r' :: 'u' :: 'e' :: r => some (.boolVal true, r)
        | 'f' :: 'a' :: 'l' :: 's' :: 'e' :: r => some (.boolVal false, r)
        | 'n' :: 'u' :: 'l' :: 'l' :: r => some (.null, r)
        | s2 => (parseNumber s2).map (fun p => (JValue.num p.1, p.2))

/-- Parses the members of a JSON object (input starts at the first member's key);
consumes the closing brace. -/
def parseMembers : Nat → Str → Option (List (Str × JValue) × Str)
  | 0, _ => none
  | fuel + 1, s =>
    match skipWs s with
    | [] => none
    | c :: rest =>
      if c = dqChar then
        match parseStringBody rest with
        | none => none
        | some (k, r1) =>
          match skipWs r1 with
          | c2 :: r2 =>
            if c2 = ':' then
              match parseValue fuel r2 with
              | none => none
              | some (v, r3) =>
                match skipWs r3 with
                | c3 :: r4 =>
                  if c3 = ',' then (parseMembers fuel r4).map (fun p => ((k, v) :: p.1, p.2))
                  else if c3 = cbChar then some ([(k, v)], r4)
                  else none
                | [] => none
            else none
          | [] => none
      else none

/-- Parses the elements of a JSON array (input starts at the first element);
consumes the closing bracket. -/
def parseElems : Nat → Str → Option (List JValue × Str)
  | 0, _ => none
  | fuel + 1, s =>
    match parseValue fuel s with
    | none => none
    | some (v, r1) =>
      match skipWs r1 with
      | c :: r2 =>
        if c = ',' then (parseElems fuel r2).map (fun p => (v :: p.1, p.2))
        else if c = ']' then some ([v], r2)
        else none
      | [] => none

end

/-- `JSON.parse` on one text: the parse must consume the whole input (up to
trailing whitespace); `none` is a thrown `SyntaxError`. -/
def jsonParse (s : Str) : Option JValue :=
  match parseValue (s.length + 1) s with
  | some (v, rest) => if skipWs rest = [] then some v else none
  | none => none

-- ===========================================================================
-- ledger.ts — validation and the append-only ledger
-- ===========================================================================

/-- Decidable test for `confidence < 0` on a decimal literal: negative sign and a
non-zero magnitude. -/
def JsNumber.ltZero (n : JsNumber) : Bool :=
  n.neg && (n.ip != 0 || n.frac.any (fun d => d.val != 0))

/-- Decidable test for `confidence > 1` on a decimal literal: positive sign and a
magnitude above one. -/
def JsNumber.gtOne (n : JsNumber) : Bool :=
  !n.neg && (decide (1 < n.ip) || (n.ip == 1 && n.frac.any (fun d => d.val != 0)))

/-- The error message of the translator business rule (both `ledger.ts` and
`contract.ts` use this text). -/
def translatorRequiredMsg : Str :=
  ("translator field is required when method is ").data ++
    apChar :: ("human").data ++ apChar :: (" or ").data ++
    apChar :: ("hybrid").data ++ [apChar]

/-- The error message of the confidence business rule. -/
def confidenceRangeMsg : Str := ("confidence must be between 0.0 and 1.0").data

/-- The structural-failure message prefix of `validateEnvelope` (the AJV error
list is not modelled). -/
def invalidEnvelopeMsg : Str := ("Invalid translation contract envelope").data

/-- `validateEnvelope` from `ledger.ts`: the AJV structural check of the envelope
against `schema.json`, then the two business rules — translator required for
human/hybrid (JS truthiness: absent or empty fails), then the confidence range
`confidence < 0 || confidence > 1` (implemented by the decidable digit tests,
proved equivalent to the rational comparisons in `ltZero_iff_toRat`
and `gtOne_iff_toRat` below). -/
def validateEnvelope (envelope : TranslationContractEnvelope) : Except Str Unit :=
  if !(schemaOkEnvelope (encodeEnvelope envelope)) then .error invalidEnvelopeMsg
  else
    let contract := envelope.contract
    if (contract.method = .human || contract.method = .hybrid) &&
        !(optStrTruthy contract.translator) then
      .error translatorRequiredMsg
    else if contract.confidence.ltZero || contract.confidence.gtOne then
      .error confidenceRangeMsg
    else .ok ()

/-- Observable side effects of a pipeline run. -/
inductive Event where
  | providerCall
  | contractBuilt
  | ledgerWrite
deriving Repr, DecidableEq

/-- The world a run acts on: whether `./output` exists, the contents of the ledger
file (`none` = file absent), and the trace of observable events. -/
structure World where
  outputDirExists : Bool
  ledger : Option Str
  trace : List Event
deriving Repr, DecidableEq

/-- `saveLedgerEntry` from `ledger.ts`: validates the envelope first; only then
serializes it as one NDJSON line, ensures the output directory exists
(`Deno.mkdir` recursive) and appends the line (`Deno.writeTextFile` with
append+create).  Disk-level write failures are not modelled. -/
def saveLedgerEntry (envelope : TranslationContractEnvelope) (w : World) :
    Except Str Unit × World :=
  match validateEnvelope envelope with
  | .error e => (.error e, w)
  | .ok _ =>
    let line := stringifyEnvelope envelope ++ [nlChar]
    (.ok (), { outputDirExists := true,
               ledger := some (w.ledger.getD [] ++ line),
               trace := w.trace ++ [Event.ledgerWrite] })

/-- `String.prototype.trim`. -/
def jsTrim (s : Str) : Str :=
  (((s.dropWhile isWsChar).reverse).dropWhile isWsChar).reverse

/-- `String.prototype.split` on the newline character. -/
def splitNl : Str → List Str
  | [] => [[]]
  | c :: rest =>
    if c = nlChar then [] :: splitNl rest
    else
      match splitNl rest with
      | [] => [[c]]
      | h :: t => (c :: h) :: t

/-- `content.trim().split(newline).filter(line.length > 0)` from `readLedger`. -/
def ledgerLines (content : Str) : List Str :=
  (splitNl (jsTrim content)).filter (fun l => 0 < l.length)

/-- The message of a rethrown JSON `SyntaxError`. -/
def jsonErrMsg : Str := ("SyntaxError: unexpected token in JSON").data

/-- `lines.map(line.JSON.parse)` with JS exception semantics: the first line that
fails to parse aborts the whole read. -/
def parseLines : List Str → Except Str (List JValue)
  | [] => .ok []
  | l :: ls =>
    match jsonParse l with
    | none => .error jsonErrMsg
    | some v =>
      match parseLines ls with
      | .ok vs => .ok (v :: vs)
      | .error m => .error m

/-- `readLedger` from `ledger.ts`: a missing file yields `[]` (the `NotFound`
catch); otherwise trims, splits into non-empty lines and parses each line as one
JSON value, failing wholesale on the first unparseable line.  No schema or
business validation is applied to what is read back. -/
def readLedger (file : Option Str) : Except Str (List JValue) :=
  match file with
  | none => .ok []
  | some content => parseLines (ledgerLines content)

-- ===========================================================================
-- translate.ts — the pipeline entry point
-- ===========================================================================

/-- The fixed wall-clock readings of one run: `Date.now()` (milliseconds) and
`new Date().toISOString()`. -/
structure Clock where
  nowMs : Nat
  iso : Str
deriving Repr, DecidableEq

/-- The signing placeholder flag from `translate.ts`. -/
def ENABLE_SIGNING : Bool := false

/-- `buildProvenance` from `translate.ts`. -/
def buildProvenance (tenant_id : Str) (clk : Clock) : ProvenanceBlock :=
  { timestamp := clk.iso,
    tenant_id := tenant_id,
    signature := if ENABLE_SIGNING then ("<todo-signature>").data else [] }

namespace Translate

/-- `buildContract` from `translate.ts`: hashes
`source_language + "_" + target_language + "_" + source_text` for the id and
copies the remaining fields; it never fails. -/
def buildContract (input : TranslationRequestInput) (translatedText : Str)
    (confidence : JsNumber) (clk : Clock) : TranslationContract :=
  { id := generateContractId
      (input.source_language ++ usChar :: input.target_language ++
        usChar :: input.source_text) clk.nowMs,
    workflow := input.workflow,
    flow := input.flow,
    source_language := input.source_language,
    target_language := input.target_language,
    source_text := input.source_text,
    translated_text := translatedText,
    translator := input.translator,
    method := input.method,
    confidence := confidence,
    provenance := buildProvenance input.tenant_id clk }

end Translate

/-- The provider capability interface from `providers/types.ts`: one operation
taking (source_language, target_language, text) and returning translated text
plus confidence, or failing. -/
structure TranslationProvider where
  translate : Str → Str → Str → Except Str (Str × JsNumber)

/-- `translateRequest` from `translate.ts`: invokes the provider (recording the
call), on success builds the contract, wraps it into an envelope and hands it to
`saveLedgerEntry`; returns the envelope only after a successful save.  Provider
errors propagate unchanged. -/
def translateRequest (provider : TranslationProvider) (input : TranslationRequestInput)
    (clk : Clock) (w : World) : Except Str TranslationContractEnvelope × World :=
  let w1 : World := { w with trace := w.trace ++ [Event.providerCall] }
  match provider.translate input.source_language input.target_language input.source_text with
  | .error e => (.error e, w1)
  | .ok (translatedText, confidence) =>
    let contract := Translate.buildContract input translatedText confidence clk
    let w2 : World := { w1 with trace := w1.trace ++ [Event.contractBuilt] }
    let envelope : TranslationContractEnvelope := { contract := contract }
    match saveLedgerEntry envelope w2 with
    | (.error e, w3) => (.error e, w3)
    | (.ok _, w3) => (.ok envelope, w3)

/-- Sequentially appends a list of envelopes with `saveLedgerEntry`, stopping at
the first failure. -/
def saveAll : List TranslationContractEnvelope → World → Except Str Unit × World
  | [], w => (.ok (), w)
  | e :: es, w =>
    match saveLedgerEntry e w with
    | (.ok _, w2) => saveAll es w2
    | (.error m, w2) => (.error m, w2)

-- ===========================================================================
-- contract.ts — the contract-module builder, validator and persistence
-- ===========================================================================

namespace ContractTs

/-- `BuildContractParams` from `contract.ts`. -/
structure BuildContractParams where
  workflow : Str
  flow : Str
  source_language : Str
  target_language : Str
  source_text : Str
  translated_text : Str
  method : TranslationMethod
  confidence : JsNumber
  tenant_id : Str
  translator : Option Str
  signature : Option Str
deriving Repr, DecidableEq

/-- The structural-failure message prefix of `validateContract`. -/
def invalidContractMsg : Str := ("Invalid translation contract").data

/-- `validateContract` from `contract.ts`: the AJV structural check of the bare
contract, then the same two business rules as `ledger.ts` in the same order. -/
def validateContract (contract : TranslationContract) : Except Str Unit :=
  if !(schemaOkContract (encodeContract contract)) then .error invalidContractMsg
  else if (contract.method = .human || contract.method = .hybrid) &&
      !(optStrTruthy contract.translator) then
    .error translatorRequiredMsg
  else if contract.confidence.ltZero || contract.confidence.gtOne then
    .error confidenceRangeMsg
  else .ok ()

/-- `buildContract` from `contract.ts`: hashes
`source_text + "_" + target_language + "_" + workflow + "_" + flow` for the id,
assembles the contract (adding `translator` only when truthy, and defaulting
`signature` to the empty string), and then — unlike the builder in
`translate.ts` — calls `validateContract` before returning, so it fails on
business-rule violations. -/
def buildContract (params : BuildContractParams) (clk : Clock) :
    Except Str TranslationContract :=
  let contentForId := params.source_text ++ usChar :: params.target_language ++
    usChar :: params.workflow ++ usChar :: params.flow
  let contract : TranslationContract :=
    { id := generateContractId contentForId clk.nowMs,
      workflow := params.workflow,
      flow := params.flow,
      source_language := params.source_language,
      target_language := params.target_language,
      source_text := params.source_text,
      translated_text := params.translated_text,
      translator := if optStrTruthy params.translator then params.translator else none,
      method := params.method,
      confidence := params.confidence,
      provenance := { timestamp := clk.iso,
                      tenant_id := params.tenant_id,
                      signature := (params.signature.getD []) } }
  match validateContract contract with
  | .error e => .error e
  | .ok _ => .ok contract

end ContractTs

-- ===========================================================================
-- providers/mock.ts — the deterministic mock provider
-- ===========================================================================

/-- `MockProviderConfig` from `providers/mock.ts` (`simulateDelay` only affects
timing and is not modelled). -/
structure MockProviderConfig where
  shouldFail : Bool
  fixedConfidence : JsNumber
deriving Repr, DecidableEq

/-- The defaulted mock configuration (`shouldFail: false`, confidence `0.95`). -/
def MockProviderConfig.base : MockProviderConfig :=
  { shouldFail := false, fixedConfidence := ⟨false, 0, [9, 5]⟩ }

/-- The exact-match rules table of `mockTranslate`. -/
def mockRuleLookup (fromL toL text : Str) : Option Str :=
  if fromL = ("en").data then
    if toL = ("pt").data then
      if text = ("Hello world").data then some (("Olá mundo").data)
      else if text = ("Hello").data then some (("Olá").data)
      else if text = ("test").data then some (("teste").data)
      else if text = ("The system is auditable.").data then
        some (("O sistema é auditável.").data)
      else none
    else if toL = ("ja").data then
      if text = ("Hello world").data then some (("こんにちは世界").data)
      else if text = ("Hello").data then some (("こんにちは").data)
      else none
    else none
  else if fromL = ("pt").data then
    if toL = ("en").data then
      if text = ("Olá mundo").data then some (("Hello world").data)
      else if text = ("O sistema é auditável.").data then
        some (("The system is auditable.").data)
      else none
    else none
  else if fromL = ("python").data then
    if toL = ("pt").data then
      if text = ("def greet(): print(").data ++ apChar :: ("Hello").data ++
          apChar :: (")").data then
        some ((("Uma função ").data ++ apChar :: ("greet").data ++
          apChar :: (" que imprime ").data ++ apChar :: ("Hello").data ++
          apChar :: (".").data))
      else if text = ("def hello(): return ").data ++ apChar :: ("world").data ++
          [apChar] then
        some ((("Uma função ").data ++ apChar :: ("hello").data ++
          apChar :: (" que retorna ").data ++ apChar :: ("world").data ++
          apChar :: (".").data))
      else none
    else if toL = ("en").data then
      if text = ("def greet(): print(").data ++ apChar :: ("Hello").data ++
          apChar :: (")").data then
        some ((("A function ").data ++ apChar :: ("greet").data ++
          apChar :: (" that prints ").data ++ apChar :: ("Hello").data ++
          apChar :: (".").data))
      else none
    else none
  else none

/-- `mockTranslate` from `providers/mock.ts`: the rules table with the
`[MOCK from→to] text` fallback. -/
def mockTranslate (text fromL toL : Str) : Str :=
  match mockRuleLookup fromL toL text with
  | some t => t
  | none => ("[MOCK ").data ++ fromL ++ ("→").data ++ toL ++ ("] ").data ++ text

/-- `MockProvider.translate`: fails when configured to, otherwise returns the
mock translation with the configured confidence. -/
def mockProvider (cfg : MockProviderConfig) : TranslationProvider :=
  { translate := fun sl tl text =>
      if cfg.shouldFail then .error (("Mock translation failed (simulated)").data)
      else .ok (mockTranslate text sl tl, cfg.fixedConfidence) }

-- ===========================================================================
-- The spec's description of the contract id (§3, §4.1), for comparison
-- ===========================================================================

/-- The contract id as the spec describes it: `generateContractId` applied to the
canonical composition of (source_text, target_language, workflow, flow) — the
composition `contract.ts` uses — plus the timestamp nonce.  This definition
follows the spec's words, to be compared with what the pipeline computes. -/
def specContractIdFormula (input : TranslationRequestInput) (nowMs : Nat) : Str :=
  generateContractId
    (input.source_text ++ usChar :: input.target_language ++
      usChar :: input.workflow ++ usChar :: input.flow) nowMs


-- ===========================================================================
-- Parsing semantics predicates and line joining
-- ===========================================================================

/-- `t` followed by anything parses (with fuel at least `k`) to the value `v`,
consuming exactly `t`. -/
def PVal (k : Nat) (t : Str) (v : JValue) : Prop :=
  ∀ f r, k ≤ f → parseValue f (t ++ r) = some (v, r)

/-- Like `PVal` but only when a member/object delimiter follows (numbers need a
non-digit after them). -/
def PValD (k : Nat) (t : Str) (v : JValue) : Prop :=
  ∀ f r c, k ≤ f → (c = ',' ∨ c = cbChar) →
    parseValue f (t ++ c :: r) = some (v, c :: r)

/-- Object-member text `t` (without its closing brace) parses to the member
list `ms`, consuming the closing brace. -/
def PMem (k : Nat) (t : Str) (ms : List (Str × JValue)) : Prop :=
  ∀ f r, k ≤ f → parseMembers f (t ++ cbChar :: r) = some (ms, r)

/-- Whether the input does not begin with a decimal digit (the stopping condition
for digit runs). -/
def headNotDigit : Str → Bool
  | [] => true
  | c :: _ => !isDecDigit c

/-- NDJSON contents: each line followed by one newline. -/
def joinLines (ls : List Str) : Str := (ls.map (fun l => l ++ [nlChar])).flatten

-- ===========================================================================
-- Concrete fixtures used by the witnesses and counterexamples
-- ===========================================================================

/-- A fixed clock: `Date.now() = 0`, a fixed ISO timestamp. -/
def clk0 : Clock := { nowMs := 0, iso := ("2025-11-13T18:44:00.123Z").data }

/-- The initial world: no output directory, no ledger file, empty trace. -/
def w0 : World := { outputDirExists := false, ledger := none, trace := [] }

/-- The concrete machine-method request of the repository's tests (§8 scenario 7). -/
def req0 : TranslationRequestInput :=
  { source_language := ("en").data, target_language := ("pt").data,
    source_text := ("Hello world").data, workflow := ("test_workflow").data,
    flow := ("test_flow").data, tenant_id := ("test_tenant").data,
    method := .machine, translator := none }

/-- The same request with method `human` and no translator. -/
def reqHuman : TranslationRequestInput := { req0 with method := .human }

/-- A request with short workflow/flow ids, for the contract-id comparison. -/
def reqWf : TranslationRequestInput :=
  { req0 with workflow := ("wf").data, flow := ("fl").data }

/-- `reqWf` with a different workflow (and everything else identical). -/
def reqWf2 : TranslationRequestInput := { reqWf with workflow := ("wf2").data }

/-- The contract id the pipeline actually produces for a request at `Date.now() = 0`. -/
def pipelineIdAt (input : TranslationRequestInput) : Str :=
  match (translateRequest (mockProvider MockProviderConfig.base) input clk0 w0).1 with
  | .ok env => env.contract.id
  | .error _ => []

/-- A concrete valid envelope (machine method, confidence 0.9). -/
def env0 : TranslationContractEnvelope :=
  { contract :=
    { id := ("trans_aaaaaa").data, workflow := ("wf1").data, flow := ("fl1").data,
      source_language := ("en").data, target_language := ("pt").data,
      source_text := ("hello").data, translated_text := ("olá").data,
      translator := none, method := .machine, confidence := ⟨false, 0, [9]⟩,
      provenance := { timestamp := ("2025-11-13T18:44:00.123Z").data,
                      tenant_id := ("t1").data, signature := [] } } }

/-- A second valid envelope (human method with a translator, confidence 0.85). -/
def env1 : TranslationContractEnvelope :=
  { contract :=
    { id := ("trans_bbbbbb").data, workflow := ("wf2").data, flow := ("fl2").data,
      source_language := ("pt").data, target_language := ("en").data,
      source_text := ("olá").data, translated_text := ("hello").data,
      translator := some (("john.doe@example.com").data), method := .human,
      confidence := ⟨false, 0, [8, 5]⟩,
      provenance := { timestamp := ("2025-11-13T18:44:00.123Z").data,
                      tenant_id := ("t1").data, signature := [] } } }

/-- An envelope violating the confidence range (1.5). -/
def envBadConf : TranslationContractEnvelope :=
  { contract := { env0.contract with confidence := ⟨false, 1, [5]⟩ } }

/-- An envelope violating the translator rule (human, no translator). -/
def envBadTr : TranslationContractEnvelope :=
  { contract := { env0.contract with method := .human } }

/-- The `contract.ts` builder parameters of the repository's own
`validateContract` test: confidence 1.5. -/
def p15 : ContractTs.BuildContractParams :=
  { workflow := ("test").data, flow := ("test").data, source_language := ("en").data,
    target_language := ("pt").data, source_text := ("test").data,
    translated_text := ("teste").data, method := .machine,
    confidence := ⟨false, 1, [5]⟩, tenant_id := ("test").data,
    translator := none, signature := none }

/-- A ledger file content whose single line is not JSON. -/
def garbageContent : Str := ("garbage").data

/-- A ledger file content whose single line parses as JSON (`{}`) but is far from
schema-valid. -/
def emptyObjContent : Str := [obChar, cbChar]

deriving instance DecidableEq for Except

-- ===========================================================================
-- Numeric meaning of the decidable confidence tests
-- ===========================================================================

/-- Fractional digit values are nonnegative. -/
theorem fracVal_nonneg (ds : List (Fin 10)) : 0 ≤ fracVal ds := by
  induction ds with
  | nil => simp [fracVal]
  | cons d tl ih =>
    simp only [fracVal]
    positivity

/-- Fractional digit values are below one. -/
theorem fracVal_lt_one (ds : List (Fin 10)) : fracVal ds < 1 := by
  induction ds with
  | nil => simp [fracVal]
  | cons d tl ih =>
    simp only [fracVal]
    rw [div_lt_one (by norm_num)]
    have hd : (d.val : ℚ) ≤ 9 := by
      have := d.isLt
      exact_mod_cast Nat.lt_succ_iff.mp this
    linarith

/-- A fractional digit value is zero exactly when every digit is zero. -/
theorem fracVal_eq_zero_iff (ds : List (Fin 10)) :
    fracVal ds = 0 ↔ ds.all (fun d => d.val == 0) = true := by
  induction ds with
  | nil => simp [fracVal]
  | cons d tl ih =>
    simp only [fracVal, List.all_cons, Bool.and_eq_true, beq_iff_eq]
    constructor
    · intro h
      have hsum : (d.val : ℚ) + fracVal tl = 0 := by
        field_simp at h
        linarith [h]
      have hd0 : (d.val : ℚ) = 0 := by
        have h1 := fracVal_nonneg tl
        have h2 : (0 : ℚ) ≤ (d.val : ℚ) := by positivity
        linarith
      refine ⟨by exact_mod_cast hd0, ih.mp (by linarith [hsum, hd0])⟩
    · rintro ⟨hd, htl⟩
      have : fracVal tl = 0 := ih.mpr htl
      simp [hd, this]

/-- The magnitude of a decimal literal is zero exactly when the decidable
zero test says so. -/
theorem mag_pos_iff (n : JsNumber) :
    (0 : ℚ) < n.ip + fracVal n.frac ↔
      (n.ip != 0 || n.frac.any (fun d => d.val != 0)) = true := by
  rcases Nat.eq_zero_or_pos n.ip with h0 | hpos
  · simp only [h0, Nat.cast_zero, zero_add, bne_self_eq_false, Bool.false_or]
    constructor
    · intro h
      by_contra hany
      have hall : n.frac.all (fun d => d.val == 0) = true := by
        rw [List.all_eq_true]
        intro d hd
        rw [List.any_eq_true] at hany
        push_neg at hany
        have := hany d hd
        simpa using this
      have := (fracVal_eq_zero_iff n.frac).mpr hall
      linarith
    · intro h
      rcases List.any_eq_true.mp h with ⟨d, hd, hne⟩
      have hnz : fracVal n.frac ≠ 0 := by
        intro hz
        have hall := (fracVal_eq_zero_iff n.frac).mp hz
        rw [List.all_eq_true] at hall
        have := hall d hd
        simp at this hne
        exact hne this
      have := fracVal_nonneg n.frac
      rcases lt_or_eq_of_le this with h1 | h1
      · exact h1
      · exact absurd h1.symm hnz
  · constructor
    · intro _
      have : n.ip != 0 := by simpa using Nat.pos_iff_ne_zero.mp hpos
      simp [this]
    · intro _
      have h1 : (1 : ℚ) ≤ (n.ip : ℚ) := by exact_mod_cast hpos
      have h2 := fracVal_nonneg n.frac
      linarith

/-- The decidable negativity test means `toRat < 0`. -/
theorem ltZero_iff_toRat (n : JsNumber) : n.ltZero = true ↔ n.toRat < 0 := by
  have hmag := mag_pos_iff n
  have hf := fracVal_nonneg n.frac
  have hip : (0 : ℚ) ≤ (n.ip : ℚ) := by positivity
  unfold JsNumber.ltZero JsNumber.toRat
  rcases hn : n.neg with _ | _
  · simp only [hn, Bool.false_and, Bool.false_eq_true, false_iff, if_false]
    push_neg
    linarith
  · simp only [hn, Bool.true_and, if_true, neg_neg, Left.neg_neg_iff]
    exact hmag.symm

/-- The decidable above-one test means `1 < toRat`. -/
theorem gtOne_iff_toRat (n : JsNumber) : n.gtOne = true ↔ 1 < n.toRat := by
  have hf0 := fracVal_nonneg n.frac
  have hf1 := fracVal_lt_one n.frac
  have hip : (0 : ℚ) ≤ (n.ip : ℚ) := by positivity
  unfold JsNumber.gtOne JsNumber.toRat
  rcases hn : n.neg with _ | _
  · simp only [hn, Bool.not_false, Bool.true_and, Bool.false_eq_true, if_false]
    constructor
    · intro h
      simp only [Bool.or_eq_true, decide_eq_true_eq, Bool.and_eq_true, beq_iff_eq] at h
      rcases h with h1 | ⟨hip1, hany⟩
      · have : (2 : ℚ) ≤ (n.ip : ℚ) := by exact_mod_cast h1
        linarith
      · have hpos : (0 : ℚ) < fracVal n.frac := by
          rcases lt_or_eq_of_le hf0 with h2 | h2
          · exact h2
          · exfalso
            have hall := (fracVal_eq_zero_iff n.frac).mp h2.symm
            rw [List.all_eq_true] at hall
            rcases List.any_eq_true.mp hany with ⟨d, hd, hne⟩
            have := hall d hd
            simp only [beq_iff_eq] at this
            simp only [bne_iff_ne, ne_eq] at hne
            exact hne this
        rw [hip1]
        push_cast
        linarith
    · intro h
      simp only [Bool.or_eq_true, decide_eq_true_eq, Bool.and_eq_true, beq_iff_eq]
      by_cases h2 : 1 < n.ip
      · exact Or.inl h2
      · push_neg at h2
        right
        have hip1 : n.ip = 1 := by
          rcases Nat.lt_or_ge n.ip 1 with h3 | h3
          · exfalso
            have : n.ip = 0 := by omega
            rw [this] at h
            simp only [Nat.cast_zero, zero_add] at h
            linarith
          · omega
        refine ⟨hip1, ?_⟩
        have hfr : (0 : ℚ) < fracVal n.frac := by
          rw [hip1] at h
          simp only [Nat.cast_one] at h
          linarith
        by_contra hany
        have hall : n.frac.all (fun d => d.val == 0) = true := by
          rw [List.all_eq_true]
          intro d hd
          rw [List.any_eq_true] at hany
          push_neg at hany
          have := hany d hd
          simpa using this
        have := (fracVal_eq_zero_iff n.frac).mpr hall
        linarith
  · simp only [hn, Bool.not_true, Bool.false_and, Bool.false_eq_true, false_iff, if_true]
    push_neg
    linarith

-- ===========================================================================
-- Typed envelopes always pass the structural layer, and read-back restores them
-- ===========================================================================

/-- Every typed contract passes the structural schema check (well-typedness is
exactly what the structural layer tests). -/
theorem schemaOk_encodeContract (c : TranslationContract) :
    schemaOkContract (encodeContract c) = true := by
  rcases c with ⟨i, w, f, sl, tl, st, tt, tr, m, conf, p⟩
  cases tr <;> cases m <;> rfl

/-- Every typed envelope passes the structural schema check. -/
theorem schemaOk_encodeEnvelope (e : TranslationContractEnvelope) :
    schemaOkEnvelope (encodeEnvelope e) = true := by
  rcases e with ⟨c⟩
  exact schemaOk_encodeContract c

/-- Reading the serialized JSON value back through the TypeScript field accesses
restores the contract exactly. -/
theorem decode_encodeContract (c : TranslationContract) :
    decodeContract (encodeContract c) = some c := by
  rcases c with ⟨i, w, f, sl, tl, st, tt, tr, m, conf, p⟩
  cases tr <;> cases m <;> rfl

/-- Reading the serialized JSON value back restores the envelope exactly. -/
theorem decode_encodeEnvelope (e : TranslationContractEnvelope) :
    decodeEnvelope (encodeEnvelope e) = some e := by
  rcases e with ⟨c⟩
  show (decodeContract (encodeContract c)).map _ = _
  rw [decode_encodeContract]
  rfl

-- ===========================================================================
-- The validation gates in terms of the business rules
-- ===========================================================================

/-- `validateEnvelope` reduced past its (always passing) structural layer. -/
theorem validateEnvelope_eq (env : TranslationContractEnvelope) :
    validateEnvelope env =
      (if (env.contract.method = .human || env.contract.method = .hybrid) &&
          !(optStrTruthy env.contract.translator) then .error translatorRequiredMsg
       else if env.contract.confidence.ltZero || env.contract.confidence.gtOne then
         .error confidenceRangeMsg
       else .ok ()) := by
  unfold validateEnvelope
  rw [schemaOk_encodeEnvelope]
  rfl

/-- `ContractTs.validateContract` reduced past its structural layer. -/
theorem validateContract_eq (c : TranslationContract) :
    ContractTs.validateContract c =
      (if (c.method = .human || c.method = .hybrid) && !(optStrTruthy c.translator) then
         .error translatorRequiredMsg
       else if c.confidence.ltZero || c.confidence.gtOne then .error confidenceRangeMsg
       else .ok ()) := by
  unfold ContractTs.validateContract
  rw [schemaOk_encodeContract]
  rfl

-- ===========================================================================
-- String-literal printing parses back (escape round trip)
-- ===========================================================================

/-- Hex digits print-parse round trip. -/
theorem hexVal_hexDigitChar (n : Nat) (h : n < 16) : hexVal (hexDigitChar n) = some n := by
  interval_cases n <;> decide

/-- One escaped character parses back to that character. -/
theorem parseStringBody_escapeChar (c : Char) (t : Str) :
    parseStringBody (escapeChar c ++ t) =
      (parseStringBody t).map (fun p => (c :: p.1, p.2)) := by
  by_cases h1 : c = dqChar
  · subst h1
    show parseStringBody (bsChar :: dqChar :: t) = _
    rw [parseStringBody.eq_def]
    simp [show ¬(bsChar = dqChar) by decide]
  by_cases h2 : c = bsChar
  · subst h2
    show parseStringBody (bsChar :: bsChar :: t) = _
    rw [parseStringBody.eq_def]
    simp [show ¬(bsChar = dqChar) by decide, show ¬(bsChar = '/') by decide,
      show ¬(bsChar = 'n') by decide]
  by_cases h3 : c = nlChar
  · subst h3
    show parseStringBody (bsChar :: 'n' :: t) = _
    rw [parseStringBody.eq_def]
    simp [show ¬(bsChar = dqChar) by decide, show ¬('n' = dqChar) by decide,
      show ¬('n' = bsChar) by decide, show ¬('n' = '/') by decide]
  by_cases h4 : c = Char.ofNat 9
  · subst h4
    show parseStringBody (bsChar :: 't' :: t) = _
    rw [parseStringBody.eq_def]
    simp [show ¬(bsChar = dqChar) by decide, show ¬('t' = dqChar) by decide,
      show ¬('t' = bsChar) by decide, show ¬('t' = '/') by decide,
      show ¬('t' = 'n') by decide]
  by_cases h5 : c = Char.ofNat 13
  · subst h5
    show parseStringBody (bsChar :: 'r' :: t) = _
    rw [parseStringBody.eq_def]
    simp [show ¬(bsChar = dqChar) by decide, show ¬('r' = dqChar) by decide,
      show ¬('r' = bsChar) by decide, show ¬('r' = '/') by decide,
      show ¬('r' = 'n') by decide, show ¬('r' = 't') by decide]
  by_cases h6 : c = Char.ofNat 8
  · subst h6
    show parseStringBody (bsChar :: 'b' :: t) = _
    rw [parseStringBody.eq_def]
    simp [show ¬(bsChar = dqChar) by decide, show ¬('b' = dqChar) by decide,
      show ¬('b' = bsChar) by decide, show ¬('b' = '/') by decide,
      show ¬('b' = 'n') by decide, show ¬('b' = 't') by decide,
      show ¬('b' = 'r') by decide]
  by_cases h7 : c = Char.ofNat 12
  · subst h7
    show parseStringBody (bsChar :: 'f' :: t) = _
    rw [parseStringBody.eq_def]
    simp [show ¬(bsChar = dqChar) by decide, show ¬('f' = dqChar) by decide,
      show ¬('f' = bsChar) by decide, show ¬('f' = '/') by decide,
      show ¬('f' = 'n') by decide, show ¬('f' = 't') by decide,
      show ¬('f' = 'r') by decide, show ¬('f' = 'b') by decide]
  by_cases h8 : c.toNat < 32
  · have hesc : escapeChar c ++ t =
        bsChar :: 'u' :: '0' :: '0' :: hexDigitChar (c.toNat / 16 % 16) ::
          hexDigitChar (c.toNat % 16) :: t := by
      unfold escapeChar
      rw [if_neg h1, if_neg h2, if_neg h3, if_neg h4, if_neg h5, if_neg h6, if_neg h7,
        if_pos h8]
      rfl
    rw [hesc, parseStringBody.eq_def]
    have ha : hexVal (hexDigitChar (c.toNat / 16 % 16)) = some (c.toNat / 16 % 16) :=
      hexVal_hexDigitChar _ (Nat.mod_lt _ (by omega))
    have hb : hexVal (hexDigitChar (c.toNat % 16)) = some (c.toNat % 16) :=
      hexVal_hexDigitChar _ (Nat.mod_lt _ (by omega))
    simp only [show ¬(bsChar = dqChar) by decide, if_neg, if_false,
      show (bsChar = bsChar) by rfl, if_true,
      show ¬('u' = dqChar) by decide, show ¬('u' = bsChar) by decide,
      show ¬('u' = '/') by decide, show ¬('u' = 'n') by decide,
      show ¬('u' = 't') by decide, show ¬('u' = 'r') by decide,
      show ¬('u' = 'b') by decide, show ¬('u' = 'f') by decide,
      show ('u' = 'u') by rfl,
      show hexVal '0' = some 0 by decide, ha, hb, ite_true, ite_false]
    have hcode : 4096 * 0 + 256 * 0 + 16 * (c.toNat / 16 % 16) + c.toNat % 16 = c.toNat := by
      omega
    rw [hcode, if_pos (by omega), Char.ofNat_toNat]
  · have hesc : escapeChar c ++ t = c :: t := by
      unfold escapeChar
      rw [if_neg h1, if_neg h2, if_neg h3, if_neg h4, if_neg h5, if_neg h6, if_neg h7,
        if_neg h8]
      rfl
    rw [hesc, parseStringBody.eq_def]
    simp only [if_neg h1, if_neg h2]
    rw [if_neg (by omega)]

/-- An escaped string followed by its closing quote parses back exactly. -/
theorem parseStringBody_escape (s t : Str) :
    parseStringBody (escapeStr s ++ dqChar :: t) = some (s, t) := by
  induction s with
  | nil =>
    show parseStringBody (dqChar :: t) = _
    rw [parseStringBody.eq_def]
    simp
  | cons c s2 ih =>
    show parseStringBody ((escapeChar c ++ escapeStr s2) ++ dqChar :: t) = _
    rw [List.append_assoc, parseStringBody_escapeChar, ih]
    rfl

-- ===========================================================================
-- Number printing parses back
-- ===========================================================================

/-- The fueled digit extraction computes `Nat.digits 10`. -/
theorem natDigitsAux_eq_digits (fuel n : Nat) (h : n ≤ fuel) :
    natDigitsAux fuel n = Nat.digits 10 n := by
  induction fuel generalizing n with
  | zero =>
    interval_cases n
    simp [natDigitsAux]
  | succ f ih =>
    rw [natDigitsAux]
    by_cases h0 : n = 0
    · simp [h0]
    · rw [if_neg h0, ih (n / 10) (by omega),
        Nat.digits_def' (by norm_num) (Nat.pos_of_ne_zero h0)]

/-- `natDigits` computes `Nat.digits 10`. -/
theorem natDigits_eq_digits (n : Nat) : natDigits n = Nat.digits 10 n :=
  natDigitsAux_eq_digits n n le_rfl

/-- Digit characters parse back to their digit. -/
theorem charDigit_decDigitChar (d : Fin 10) : charDigit (decDigitChar d.val) = d := by
  revert d
  decide

/-- Digit characters are decimal digits. -/
theorem isDecDigit_decDigitChar (d : Fin 10) : isDecDigit (decDigitChar d.val) = true := by
  revert d
  decide

/-- A printed digit run parses back to the same digits, stopping at the first
non-digit. -/
theorem parseDigits_map (ds : List (Fin 10)) (t : Str) (h : headNotDigit t = true) :
    parseDigits (ds.map (fun d => decDigitChar d.val) ++ t) = (ds, t) := by
  induction ds with
  | nil =>
    match t, h with
    | [], _ => rfl
    | c :: t2, h =>
      rw [List.map_nil, List.nil_append, parseDigits.eq_def]
      have : isDecDigit c = false := by
        simpa [headNotDigit] using h
      simp [this]
  | cons d ds2 ih =>
    rw [List.map_cons, List.cons_append, parseDigits.eq_def]
    simp only [isDecDigit_decDigitChar, if_true, ih, charDigit_decDigitChar]

/-- Folding the printed digit characters of `m` recovers `m`. -/
theorem natFromDigits_exists_print (m : Nat) :
    ∃ ds : List (Fin 10), printNat m = ds.map (fun d => decDigitChar d.val) ∧
      natFromDigits ds = m ∧ ds ≠ [] := by
  by_cases h0 : m = 0
  · subst h0
    exact ⟨[⟨0, by omega⟩], by decide, by decide, by decide⟩
  · refine ⟨((Nat.digits 10 m).reverse).map (fun k => ⟨k % 10, Nat.mod_lt _ (by omega)⟩),
      ?_, ?_, ?_⟩
    · rw [printNat, if_neg h0, natDigits_eq_digits, List.map_map]
      apply List.map_congr_left
      intro k _
      show decDigitChar k = decDigitChar (k % 10)
      unfold decDigitChar
      rw [Nat.mod_mod_of_dvd]
      norm_num
    · unfold natFromDigits
      rw [List.foldl_map]
      show List.foldl (fun a k => 10 * a + k % 10) 0 ((Nat.digits 10 m).reverse) = m
      have haux : ∀ (l : List Nat), (∀ k ∈ l, k < 10) → ∀ a,
          List.foldl (fun a k => 10 * a + k % 10) a l =
            List.foldl (fun a k => 10 * a + k) a l := by
        intro l hl
        induction l with
        | nil => intro a; rfl
        | cons x xs ihx =>
          intro a
          simp only [List.foldl_cons]
          rw [Nat.mod_eq_of_lt (hl x (by simp))]
          exact ihx (fun k hk => hl k (by simp [hk])) _
      rw [haux _ (fun k hk => Nat.digits_lt_base (by norm_num) (List.mem_reverse.mp hk)),
        List.foldl_reverse]
      have hofd : ∀ l : List Nat, List.foldr (fun k a => 10 * a + k) 0 l = Nat.ofDigits 10 l := by
        intro l
        induction l with
        | nil => simp [Nat.ofDigits]
        | cons x xs ihx =>
          simp [Nat.ofDigits, ihx]
          ring
      rw [hofd]
      exact_mod_cast Nat.ofDigits_digits 10 m
    · simp only [ne_eq, List.map_eq_nil_iff, List.reverse_eq_nil_iff]
      exact Nat.digits_ne_nil_iff_ne_zero.mpr h0

/-- Digit characters are not the minus sign. -/
theorem decDigitChar_ne_minus (d : Fin 10) : ¬ (decDigitChar d.val = '-') := by
  revert d
  decide

/-- Digit characters are not the decimal point. -/
theorem decDigitChar_ne_dot (d : Fin 10) : ¬ (decDigitChar d.val = '.') := by
  revert d
  decide

/-- A string that is nonempty and does not start with a minus goes to the
sign-free number production. -/
theorem parseNumber_eq_core (s : Str) (hne : s ≠ [])
    (h : ∀ c0 r0, s = c0 :: r0 → ¬ (c0 = '-')) :
    parseNumber s = parseNumberCore false s := by
  cases s with
  | nil => exact absurd rfl hne
  | cons c0 r0 =>
    unfold parseNumber
    show (if c0 = '-' then parseNumberCore true r0 else parseNumberCore false (c0 :: r0)) = _
    rw [if_neg (h c0 r0 rfl)]

/-- A non-minus head goes to the sign-free number production. -/
theorem parseNumber_cons (c0 : Char) (r : Str) (h : ¬ c0 = '-') :
    parseNumber (c0 :: r) = parseNumberCore false (c0 :: r) := by
  unfold parseNumber
  show (if c0 = '-' then parseNumberCore true r else parseNumberCore false (c0 :: r)) = _
  rw [if_neg h]

/-- A minus head goes to the negative sign-free production. -/
theorem parseNumber_minus (r : Str) : parseNumber ('-' :: r) = parseNumberCore true r := by
  unfold parseNumber
  show (if '-' = '-' then parseNumberCore true r else _) = _
  rw [if_pos rfl]

/-- The sign-free production parses a printed magnitude back. -/
theorem parseNumberCore_print (neg : Bool) (ip : Nat) (frac : List (Fin 10)) (c : Char)
    (t : Str) (hc : isDecDigit c = false) (hdot : ¬ c = '.') :
    parseNumberCore neg (printNat ip ++
      ((if frac.isEmpty then [] else '.' :: frac.map (fun d => decDigitChar d.val)) ++
        c :: t)) = some (⟨neg, ip, frac⟩, c :: t) := by
  obtain ⟨ds, hprint, hval, hne⟩ := natFromDigits_exists_print ip
  have hndg : headNotDigit (c :: t) = true := by simp [headNotDigit, hc]
  have hdig : parseDigits (printNat ip ++
      ((if frac.isEmpty then [] else '.' :: frac.map (fun d => decDigitChar d.val)) ++
        c :: t)) = (ds,
      (if frac.isEmpty then [] else '.' :: frac.map (fun d => decDigitChar d.val)) ++
        c :: t) := by
    rw [hprint]
    apply parseDigits_map
    cases frac with
    | nil => simpa using hndg
    | cons f fs =>
      simp only [List.isEmpty_cons, Bool.false_eq_true, if_false, List.cons_append,
        headNotDigit, show isDecDigit '.' = false by decide, Bool.not_false]
  have hdsne : ds.isEmpty = false := by
    cases ds with
    | nil => exact absurd rfl hne
    | cons d ds2 => rfl
  unfold parseNumberCore
  rw [hdig]
  simp only [hdsne, Bool.false_eq_true, if_false]
  cases frac with
  | nil =>
    simp only [List.isEmpty_nil, eq_self_iff_true, if_true, List.nil_append]
    rw [if_neg hdot, hval]
  | cons f fs =>
    simp only [List.isEmpty_cons, Bool.false_eq_true, if_false, List.cons_append, if_true,
      eq_self_iff_true]
    rw [parseDigits_map _ _ hndg]
    simp only [List.isEmpty_cons, Bool.false_eq_true, if_false]
    rw [hval]

/-- A printed JS number followed by a non-digit, non-dot character parses back to
the same decimal literal. -/
theorem parseNumber_print (n : JsNumber) (c : Char) (t : Str)
    (hc : isDecDigit c = false) (hdot : ¬ c = '.') :
    parseNumber (printJsNumber n ++ c :: t) = some (n, c :: t) := by
  rcases n with ⟨neg, ip, frac⟩
  obtain ⟨ds, hprint, hval, hne⟩ := natFromDigits_exists_print ip
  cases neg with
  | false =>
    have hpj : printJsNumber ⟨false, ip, frac⟩ ++ c :: t =
        printNat ip ++
          ((if frac.isEmpty then [] else '.' :: frac.map (fun d => decDigitChar d.val)) ++
            c :: t) := by
      simp [printJsNumber]
    have hne2 : printNat ip ++
        ((if frac.isEmpty then [] else '.' :: frac.map (fun d => decDigitChar d.val)) ++
          c :: t) ≠ [] := by
      rw [hprint]
      rcases ds with _ | ⟨d, ds2⟩
      · exact absurd rfl hne
      · simp
    have hh : ∀ c0 r0, printNat ip ++
        ((if frac.isEmpty then [] else '.' :: frac.map (fun d => decDigitChar d.val)) ++
          c :: t) = c0 :: r0 → ¬ (c0 = '-') := by
      rw [hprint]
      rcases ds with _ | ⟨d, ds2⟩
      · exact absurd rfl hne
      · intro c0 r0 he
        simp only [List.map_cons, List.cons_append, List.cons.injEq] at he
        rw [← he.1]
        exact decDigitChar_ne_minus d
    rw [hpj, parseNumber_eq_core _ hne2 hh]
    exact parseNumberCore_print false ip frac c t hc hdot
  | true =>
    have hpj : printJsNumber ⟨true, ip, frac⟩ ++ c :: t =
        '-' :: (printNat ip ++
          ((if frac.isEmpty then [] else '.' :: frac.map (fun d => decDigitChar d.val)) ++
            c :: t)) := by
      simp [printJsNumber]
    rw [hpj, parseNumber_minus]
    exact parseNumberCore_print true ip frac c t hc hdot

-- ===========================================================================
-- Parsing serialized values in context
-- ===========================================================================

/-- `skipWs` is the identity on text starting with a non-whitespace character. -/
theorem skipWs_cons (c : Char) (r : Str) (h : isWsChar c = false) :
    skipWs (c :: r) = c :: r := by
  simp [skipWs, List.dropWhile_cons, h]

/-- One-step unfolding of `parseValue` at successor fuel. -/
theorem parseValue_succ (f : Nat) (s : Str) :
    parseValue (f + 1) s =
      (match skipWs s with
       | [] => none
       | c :: rest =>
         if c = dqChar then (parseStringBody rest).map (fun p => (JValue.str p.1, p.2))
         else if c = obChar then
           match skipWs rest with
           | c2 :: rest2 =>
             if c2 = cbChar then some (JValue.obj [], rest2)
             else (parseMembers f (c2 :: rest2)).map (fun p => (JValue.obj p.1, p.2))
           | [] => none
         else if c = '[' then
           match skipWs rest with
           | c2 :: rest2 =>
             if c2 = ']' then some (JValue.arr [], rest2)
             else (parseElems f (c2 :: rest2)).map (fun p => (JValue.arr p.1, p.2))
           | [] => none
         else
           match c :: rest with
           | 't' :: 'r' :: 'u' :: 'e' :: r => some (.boolVal true, r)
           | 'f' :: 'a' :: 'l' :: 's' :: 'e' :: r => some (.boolVal false, r)
           | 'n' :: 'u' :: 'l' :: 'l' :: r => some (.null, r)
           | s2 => (parseNumber s2).map (fun p => (JValue.num p.1, p.2))) := rfl

/-- One-step unfolding of `parseMembers` at successor fuel. -/
theorem parseMembers_succ (f : Nat) (s : Str) :
    parseMembers (f + 1) s =
      (match skipWs s with
       | [] => none
       | c :: rest =>
         if c = dqChar then
           match parseStringBody rest with
           | none => none
           | some (k, r1) =>
             match skipWs r1 with
             | c2 :: r2 =>
               if c2 = ':' then
                 match parseValue f r2 with
                 | none => none
                 | some (v, r3) =>
                   match skipWs r3 with
                   | c3 :: r4 =>
                     if c3 = ',' then (parseMembers f r4).map (fun p => ((k, v) :: p.1, p.2))
                     else if c3 = cbChar then some ([(k, v)], r4)
                     else none
                   | [] => none
               else none
             | [] => none
         else none) := rfl

/-- A serialized string literal parses as a JSON string value, for any fuel. -/
theorem parseValue_strLit (f : Nat) (s r : Str) :
    parseValue (f + 1) (strLit s ++ r) = some (.str s, r) := by
  have hshape : strLit s ++ r = dqChar :: (escapeStr s ++ dqChar :: r) := by
    simp [strLit]
  rw [hshape, parseValue_succ, skipWs_cons dqChar _ (by decide)]
  simp only [eq_self_iff_true, if_true, parseStringBody_escape, Option.map_some]
  rfl

/-- Any-fuel value parses restrict to delimited parses. -/
theorem pvalD_of_pval (k : Nat) (t : Str) (v : JValue) (h : PVal k t v) : PValD k t v :=
  fun f r c hf _ => h f (c :: r) hf

/-- String literals as positive-fuel parses. -/
theorem pval_strLit (s : Str) : PVal 1 (strLit s) (.str s) := by
  intro f r hf
  obtain ⟨f2, rfl⟩ : ∃ f2, f = f2 + 1 := ⟨f - 1, by omega⟩
  exact parseValue_strLit f2 s r

/-- The head character of a printed number is benign for the value dispatch. -/
theorem printNumber_headFacts (d : Fin 10) :
    isWsChar (decDigitChar d.val) = false ∧ ¬ decDigitChar d.val = dqChar ∧
    ¬ decDigitChar d.val = obChar ∧ ¬ decDigitChar d.val = '[' ∧
    ¬ decDigitChar d.val = 't' ∧ ¬ decDigitChar d.val = 'f' ∧
    ¬ decDigitChar d.val = 'n' := by
  revert d
  decide

/-- A serialized number, followed by a member/object delimiter, parses as a JSON
number value. -/
theorem pvalD_num (n : JsNumber) : PValD 1 (printJsNumber n) (.num n) := by
  intro f r c hf hc
  obtain ⟨f2, rfl⟩ : ∃ f2, f = f2 + 1 := ⟨f - 1, by omega⟩
  have hdelim : isDecDigit c = false ∧ ¬ c = '.' := by
    rcases hc with rfl | rfl
    · exact ⟨by decide, by decide⟩
    · exact ⟨by decide, by decide⟩
  obtain ⟨ds, hprint, hval, hne⟩ := natFromDigits_exists_print n.ip
  have hnum := parseNumber_print n c r hdelim.1 hdelim.2
  have hhead : ∃ c0 r0, printJsNumber n ++ c :: r = c0 :: r0 ∧
      isWsChar c0 = false ∧ ¬ c0 = dqChar ∧ ¬ c0 = obChar ∧ ¬ c0 = '[' ∧
      ¬ c0 = 't' ∧ ¬ c0 = 'f' ∧ ¬ c0 = 'n' := by
    rcases hneg : n.neg with _ | _
    · rcases ds with _ | ⟨d, ds2⟩
      · exact absurd rfl hne
      · have hsh : printJsNumber n ++ c :: r = decDigitChar d.val ::
            (List.map (fun d => decDigitChar d.val) ds2 ++
              ((if n.frac.isEmpty then []
                else '.' :: n.frac.map (fun d => decDigitChar d.val)) ++ c :: r)) := by
          simp [printJsNumber, hneg, hprint]
        exact ⟨_, _, hsh, printNumber_headFacts d⟩
    · have hsh : printJsNumber n ++ c :: r = '-' :: (printNat n.ip ++
          ((if n.frac.isEmpty then []
            else '.' :: n.frac.map (fun d => decDigitChar d.val)) ++ c :: r)) := by
        simp [printJsNumber, hneg]
      exact ⟨_, _, hsh, by decide, by decide, by decide, by decide, by decide, by decide,
        by decide⟩
  obtain ⟨c0, r0, hsh, hws, hdq, hob, hbr, ht, hf3, hn3⟩ := hhead
  rw [hsh, parseValue_succ, skipWs_cons c0 r0 hws]
  simp only [if_neg hdq, if_neg hob, if_neg hbr]
  split
  · rename_i heq
    exact absurd ((List.cons.inj heq).1) ht
  · rename_i heq
    exact absurd ((List.cons.inj heq).1) hf3
  · rename_i heq
    exact absurd ((List.cons.inj heq).1) hn3
  · rw [← hsh, hnum]
    rfl

/-- Fuel weakening for value parses. -/
theorem pval_weaken (k k2 : Nat) (t : Str) (v : JValue) (h : k ≤ k2) (hp : PVal k t v) :
    PVal k2 t v :=
  fun f r hf => hp f r (le_trans h hf)

/-- Fuel weakening for delimited value parses. -/
theorem pvalD_weaken (k k2 : Nat) (t : Str) (v : JValue) (h : k ≤ k2) (hp : PValD k t v) :
    PValD k2 t v :=
  fun f r c hf hc => hp f r c (le_trans h hf) hc

/-- Fuel weakening for member parses. -/
theorem pmem_weaken (k k2 : Nat) (t : Str) (ms : List (Str × JValue)) (h : k ≤ k2)
    (hp : PMem k t ms) : PMem k2 t ms :=
  fun f r hf => hp f r (le_trans h hf)

/-- Transport of a value parse along a text equality. -/
theorem pval_congr (k : Nat) (t1 t2 : Str) (v : JValue) (h : t1 = t2) (hp : PVal k t1 v) :
    PVal k t2 v := h ▸ hp

/-- The last member of an object: key, colon, value, closing brace. -/
theorem pmem_last (kv : Nat) (k vt : Str) (v : JValue) (hv : PValD kv vt v) :
    PMem (kv + 1) (strLit k ++ ':' :: vt) [(k, v)] := by
  intro f r hf
  obtain ⟨f2, rfl⟩ : ∃ f2, f = f2 + 1 := ⟨f - 1, by omega⟩
  have hshape : (strLit k ++ ':' :: vt) ++ cbChar :: r =
      dqChar :: (escapeStr k ++ dqChar :: ':' :: (vt ++ cbChar :: r)) := by
    simp [strLit]
  rw [hshape, parseMembers_succ, skipWs_cons dqChar _ (by decide)]
  simp only [eq_self_iff_true, if_true, parseStringBody_escape]
  rw [skipWs_cons ':' _ (by decide)]
  simp only [eq_self_iff_true, if_true]
  rw [hv f2 r cbChar (by omega) (Or.inr rfl)]
  show (match skipWs (cbChar :: r) with
        | c3 :: r4 =>
          if c3 = ',' then (parseMembers f2 r4).map (fun p => ((k, v) :: p.1, p.2))
          else if c3 = cbChar then some ([(k, v)], r4) else none
        | [] => none) = some ([(k, v)], r)
  rw [skipWs_cons cbChar _ (by decide)]
  simp only [show ¬(cbChar = ',') by decide, if_false, eq_self_iff_true, if_true]

/-- A non-final member: key, colon, value, comma, remaining members. -/
theorem pmem_cons (k0 : Nat) (k vt t2 : Str) (v : JValue) (ms : List (Str × JValue))
    (hv : PValD k0 vt v) (hm : PMem k0 t2 ms) :
    PMem (k0 + 1) (strLit k ++ ':' :: vt ++ ',' :: t2) ((k, v) :: ms) := by
  intro f r hf
  obtain ⟨f2, rfl⟩ : ∃ f2, f = f2 + 1 := ⟨f - 1, by omega⟩
  have hshape : (strLit k ++ ':' :: vt ++ ',' :: t2) ++ cbChar :: r =
      dqChar :: (escapeStr k ++ dqChar :: ':' :: (vt ++ ',' :: (t2 ++ cbChar :: r))) := by
    simp [strLit]
  rw [hshape, parseMembers_succ, skipWs_cons dqChar _ (by decide)]
  simp only [eq_self_iff_true, if_true, parseStringBody_escape]
  rw [skipWs_cons ':' _ (by decide)]
  simp only [eq_self_iff_true, if_true]
  rw [hv f2 (t2 ++ cbChar :: r) ',' (by omega) (Or.inl rfl)]
  show (match skipWs (',' :: (t2 ++ cbChar :: r)) with
        | c3 :: r4 =>
          if c3 = ',' then (parseMembers f2 r4).map (fun p => ((k, v) :: p.1, p.2))
          else if c3 = cbChar then some ([(k, v)], r4) else none
        | [] => none) = some ((k, v) :: ms, r)
  rw [skipWs_cons ',' _ (by decide)]
  simp only [eq_self_iff_true, if_true]
  rw [hm f2 r (by omega)]
  rfl

/-- An object whose member text parses: open brace, members, close brace.  The
member text must begin with a quote (every serialized key does). -/
theorem pval_obj (km : Nat) (t : Str) (ms : List (Str × JValue))
    (hhead : ∃ t3, t = dqChar :: t3) (hm : PMem km t ms) :
    PVal (km + 1) (obChar :: (t ++ [cbChar])) (.obj ms) := by
  intro f r hf
  obtain ⟨f2, rfl⟩ : ∃ f2, f = f2 + 1 := ⟨f - 1, by omega⟩
  obtain ⟨t3, rfl⟩ := hhead
  have hshape : (obChar :: ((dqChar :: t3) ++ [cbChar])) ++ r =
      obChar :: (dqChar :: (t3 ++ cbChar :: r)) := by
    simp
  rw [hshape, parseValue_succ, skipWs_cons obChar _ (by decide)]
  simp only [show ¬(obChar = dqChar) by decide, if_false, eq_self_iff_true, if_true]
  rw [skipWs_cons dqChar _ (by decide)]
  simp only [show ¬(dqChar = cbChar) by decide, if_false]
  have hback : dqChar :: (t3 ++ cbChar :: r) = (dqChar :: t3) ++ cbChar :: r := by
    simp
  rw [hback, hm f2 r (by omega)]
  rfl

/-- Member text beginning with a serialized key starts with a quote. -/
theorem strLit_head (k X : Str) : ∃ t3, strLit k ++ X = dqChar :: t3 :=
  ⟨escapeStr k ++ [dqChar] ++ X, by simp [strLit]⟩

/-- Member text beginning with a serialized key starts with a quote (nested
append shape). -/
theorem strLit_head2 (k Y Z : Str) : ∃ t3, (strLit k ++ Y) ++ Z = dqChar :: t3 :=
  ⟨(escapeStr k ++ [dqChar] ++ Y) ++ Z, by simp [strLit]⟩

/-- A serialized provenance block parses back to its JSON members. -/
theorem pval_provenance (p : ProvenanceBlock) :
    PVal 5 (stringifyProvenance p) (.obj (provenanceMembers p)) := by
  have h3 : PMem 2 (strLit ("signature").data ++ ':' :: strLit p.signature)
      [(("signature").data, .str p.signature)] :=
    pmem_last 1 _ _ _ (pvalD_of_pval _ _ _ (pval_strLit p.signature))
  have h2 : PMem 3 (strLit ("tenant_id").data ++ ':' :: strLit p.tenant_id ++ ',' ::
      (strLit ("signature").data ++ ':' :: strLit p.signature))
      [(("tenant_id").data, .str p.tenant_id), (("signature").data, .str p.signature)] :=
    pmem_cons 2 _ _ _ _ _
      (pvalD_weaken 1 2 _ _ (by omega) (pvalD_of_pval _ _ _ (pval_strLit p.tenant_id))) h3
  have h1 : PMem 4 (strLit ("timestamp").data ++ ':' :: strLit p.timestamp ++ ',' ::
      (strLit ("tenant_id").data ++ ':' :: strLit p.tenant_id ++ ',' ::
        (strLit ("signature").data ++ ':' :: strLit p.signature)))
      (provenanceMembers p) :=
    pmem_cons 3 _ _ _ _ _
      (pvalD_weaken 1 3 _ _ (by omega) (pvalD_of_pval _ _ _ (pval_strLit p.timestamp))) h2
  refine pval_congr 5 _ _ _ ?_ (pval_obj 4 _ _ (strLit_head2 _ _ _) h1)
  simp [stringifyProvenance, strLit]

/-- Transport of a value parse along a value equality. -/
theorem pval_cast (k : Nat) (t : Str) (v1 v2 : JValue) (h : v1 = v2) (hp : PVal k t v1) :
    PVal k t v2 := h ▸ hp

/-- A serialized contract parses back to its JSON members. -/
theorem pval_contract (c : TranslationContract) :
    PVal 17 (stringifyContract c) (.obj (contractMembers c)) := by
  have hprov : PValD 5 (stringifyProvenance c.provenance)
      (.obj (provenanceMembers c.provenance)) :=
    pvalD_of_pval _ _ _ (pval_provenance c.provenance)
  have hstr : ∀ (s : Str) (k0 : Nat), PValD k0.succ (strLit s) (.str s) := fun s k0 =>
    pvalD_weaken 1 _ _ _ (by omega) (pvalD_of_pval _ _ _ (pval_strLit s))
  have m10 : PMem 6 (strLit ("provenance").data ++ ':' :: stringifyProvenance c.provenance)
      [(("provenance").data, .obj (provenanceMembers c.provenance))] :=
    pmem_last 5 _ _ _ hprov
  have m9 := pmem_cons 6 (("confidence").data) (printJsNumber c.confidence) _
    (.num c.confidence) _ (pvalD_weaken 1 6 _ _ (by omega) (pvalD_num c.confidence)) m10
  have m8 := pmem_cons 7 (("method").data) (strLit c.method.toStr) _ (.str c.method.toStr) _
    (hstr _ 6) m9
  rcases htr : c.translator with _ | t
  · have m7 := pmem_cons 8 (("translated_text").data) (strLit c.translated_text) _
      (.str c.translated_text) _ (hstr _ 7) m8
    have m6 := pmem_cons 9 (("source_text").data) (strLit c.source_text) _
      (.str c.source_text) _ (hstr _ 8) m7
    have m5 := pmem_cons 10 (("target_language").data) (strLit c.target_language) _
      (.str c.target_language) _ (hstr _ 9) m6
    have m4 := pmem_cons 11 (("source_language").data) (strLit c.source_language) _
      (.str c.source_language) _ (hstr _ 10) m5
    have m3 := pmem_cons 12 (("flow").data) (strLit c.flow) _ (.str c.flow) _
      (hstr _ 11) m4
    have m2 := pmem_cons 13 (("workflow").data) (strLit c.workflow) _ (.str c.workflow) _
      (hstr _ 12) m3
    have m1 := pmem_cons 14 (("id").data) (strLit c.id) _ (.str c.id) _ (hstr _ 13) m2
    refine pval_weaken 16 17 _ _ (by omega) (pval_cast _ _ _ _ ?_
      (pval_congr _ _ _ _ ?_ (pval_obj 15 _ _ (strLit_head2 _ _ _) m1)))
    · simp [contractMembers, htr]
    · simp [stringifyContract, htr, strLit]
  · have m75 := pmem_cons 8 (("translator").data) (strLit t) _ (.str t) _ (hstr _ 7) m8
    have m7 := pmem_cons 9 (("translated_text").data) (strLit c.translated_text) _
      (.str c.translated_text) _ (hstr _ 8) m75
    have m6 := pmem_cons 10 (("source_text").data) (strLit c.source_text) _
      (.str c.source_text) _ (hstr _ 9) m7
    have m5 := pmem_cons 11 (("target_language").data) (strLit c.target_language) _
      (.str c.target_language) _ (hstr _ 10) m6
    have m4 := pmem_cons 12 (("source_language").data) (strLit c.source_language) _
      (.str c.source_language) _ (hstr _ 11) m5
    have m3 := pmem_cons 13 (("flow").data) (strLit c.flow) _ (.str c.flow) _
      (hstr _ 12) m4
    have m2 := pmem_cons 14 (("workflow").data) (strLit c.workflow) _ (.str c.workflow) _
      (hstr _ 13) m3
    have m1 := pmem_cons 15 (("id").data) (strLit c.id) _ (.str c.id) _ (hstr _ 14) m2
    refine pval_cast _ _ _ _ ?_
      (pval_congr _ _ _ _ ?_ (pval_obj 16 _ _ (strLit_head2 _ _ _) m1))
    · simp [contractMembers, htr]
    · simp [stringifyContract, htr, strLit]

/-- A serialized envelope parses back to its JSON encoding. -/
theorem pval_envelope (e : TranslationContractEnvelope) :
    PVal 19 (stringifyEnvelope e) (encodeEnvelope e) := by
  have m1 : PMem 18 (strLit ("contract").data ++ ':' :: stringifyContract e.contract)
      [(("contract").data, .obj (contractMembers e.contract))] :=
    pmem_last 17 _ _ _ (pvalD_of_pval _ _ _ (pval_contract e.contract))
  refine pval_cast _ _ _ _ ?_ (pval_congr _ _ _ _ ?_ (pval_obj 18 _ _ (strLit_head _ _) m1))
  · rfl
  · simp [stringifyEnvelope, strLit]

/-- The serialized envelope is long enough for the default fuel. -/
theorem stringifyEnvelope_length (e : TranslationContractEnvelope) :
    19 ≤ (stringifyEnvelope e).length + 1 := by
  simp [stringifyEnvelope, stringifyContract, strLit, List.length_append]
  omega

/-- `JSON.parse` inverts the envelope serialization. -/
theorem jsonParse_stringifyEnvelope (e : TranslationContractEnvelope) :
    jsonParse (stringifyEnvelope e) = some (encodeEnvelope e) := by
  unfold jsonParse
  have hp := pval_envelope e ((stringifyEnvelope e).length + 1) []
    (stringifyEnvelope_length e)
  rw [List.append_nil] at hp
  rw [hp]
  rfl

-- ===========================================================================
-- Serialized envelopes contain no control characters (in particular no newline)
-- ===========================================================================

/-- Characters of an append, from both parts. -/
theorem mem_ge32_append (a b : Str) (ha : ∀ ch ∈ a, 32 ≤ ch.toNat)
    (hb : ∀ ch ∈ b, 32 ≤ ch.toNat) : ∀ ch ∈ a ++ b, 32 ≤ ch.toNat := by
  intro ch hch
  rcases List.mem_append.mp hch with h | h
  · exact ha ch h
  · exact hb ch h

/-- Characters of a cons. -/
theorem mem_ge32_cons (c : Char) (a : Str) (hc : 32 ≤ c.toNat)
    (ha : ∀ ch ∈ a, 32 ≤ ch.toNat) : ∀ ch ∈ c :: a, 32 ≤ ch.toNat := by
  intro ch hch
  rcases List.mem_cons.mp hch with rfl | h
  · exact hc
  · exact ha ch h

/-- Hex digit characters are printable. -/
theorem hexDigitChar_ge32 (n : Nat) : 32 ≤ (hexDigitChar n).toNat := by
  unfold hexDigitChar
  split <;> decide

/-- Escape sequences contain only printable characters. -/
theorem mem_ge32_escapeChar (c : Char) : ∀ ch ∈ escapeChar c, 32 ≤ ch.toNat := by
  intro ch hch
  unfold escapeChar at hch
  split_ifs at hch with h1 h2 h3 h4 h5 h6 h7 h8
  · rcases List.mem_cons.mp hch with rfl | hch
    · decide
    · rcases List.mem_singleton.mp hch with rfl
      decide
  · rcases List.mem_cons.mp hch with rfl | hch
    · decide
    · rcases List.mem_singleton.mp hch with rfl
      decide
  · rcases List.mem_cons.mp hch with rfl | hch
    · decide
    · rcases List.mem_singleton.mp hch with rfl
      decide
  · rcases List.mem_cons.mp hch with rfl | hch
    · decide
    · rcases List.mem_singleton.mp hch with rfl
      decide
  · rcases List.mem_cons.mp hch with rfl | hch
    · decide
    · rcases List.mem_singleton.mp hch with rfl
      decide
  · rcases List.mem_cons.mp hch with rfl | hch
    · decide
    · rcases List.mem_singleton.mp hch with rfl
      decide
  · rcases List.mem_cons.mp hch with rfl | hch
    · decide
    · rcases List.mem_singleton.mp hch with rfl
      decide
  · simp only [List.mem_cons, List.mem_singleton] at hch
    rcases hch with rfl | rfl | rfl | rfl | rfl | rfl | habs
    · decide
    · decide
    · decide
    · decide
    · exact hexDigitChar_ge32 _
    · exact hexDigitChar_ge32 _
    · exact absurd habs (List.not_mem_nil _)
  · rcases List.mem_singleton.mp hch with rfl
    omega

/-- Escaped strings contain only printable characters. -/
theorem mem_ge32_escapeStr (s : Str) : ∀ ch ∈ escapeStr s, 32 ≤ ch.toNat := by
  intro ch hch
  rcases List.mem_flatMap.mp hch with ⟨c, _, hc2⟩
  exact mem_ge32_escapeChar c ch hc2

/-- String literals contain only printable characters. -/
theorem mem_ge32_strLit (s : Str) : ∀ ch ∈ strLit s, 32 ≤ ch.toNat := by
  refine mem_ge32_cons _ _ (by decide) (mem_ge32_append _ _ (mem_ge32_escapeStr s) ?_)
  intro ch hch
  rcases List.mem_singleton.mp hch with rfl
  decide

/-- Decimal digit characters are printable. -/
theorem decDigitChar_ge32 (k : Nat) : 32 ≤ (decDigitChar k).toNat := by
  show 32 ≤ (Char.ofNat (48 + k % 10)).toNat
  have hk : k % 10 < 10 := Nat.mod_lt _ (by omega)
  set m := k % 10 with hm
  interval_cases m <;> decide

/-- Printed numbers contain only printable characters. -/
theorem mem_ge32_printJsNumber (n : JsNumber) : ∀ ch ∈ printJsNumber n, 32 ≤ ch.toNat := by
  intro ch hch
  unfold printJsNumber at hch
  rcases List.mem_append.mp hch with h | h
  · rcases List.mem_append.mp h with h2 | h2
    · split_ifs at h2
      · rcases List.mem_singleton.mp h2 with rfl
        decide
      · exact absurd h2 (List.not_mem_nil _)
    · unfold printNat at h2
      split_ifs at h2
      · rcases List.mem_singleton.mp h2 with rfl
        decide
      · rcases List.mem_map.mp h2 with ⟨k, _, rfl⟩
        exact decDigitChar_ge32 k
  · split_ifs at h
    · exact absurd h (List.not_mem_nil _)
    · rcases List.mem_cons.mp h with rfl | h2
      · decide
      · rcases List.mem_map.mp h2 with ⟨d, _, rfl⟩
        exact decDigitChar_ge32 d.val

/-- Method names contain only printable characters. -/
theorem mem_ge32_toStr (m : TranslationMethod) :
    ∀ ch ∈ m.toStr, 32 ≤ ch.toNat := by
  cases m <;> (intro ch hch; revert hch; revert ch; decide)

/-- Serialized provenance blocks contain only printable characters. -/
theorem mem_ge32_stringifyProvenance (p : ProvenanceBlock) :
    ∀ ch ∈ stringifyProvenance p, 32 ≤ ch.toNat := by
  intro ch hch
  simp only [stringifyProvenance, List.mem_cons, List.mem_append,
    List.mem_singleton] at hch
  casesm* _ ∨ _
  all_goals first
    | (rename_i h; rw [h]; decide)
    | (rename_i h; exact mem_ge32_strLit _ ch h)
    | (rename_i h; exact absurd h (List.not_mem_nil _))

/-- Serialized contracts contain only printable characters. -/
theorem mem_ge32_stringifyContract (c : TranslationContract) :
    ∀ ch ∈ stringifyContract c, 32 ≤ ch.toNat := by
  intro ch hch
  rcases htr : c.translator with _ | t <;>
    (simp only [stringifyContract, htr, List.mem_cons, List.mem_append,
      List.mem_singleton] at hch
     casesm* _ ∨ _
     all_goals first
       | (rename_i h; rw [h]; decide)
       | (rename_i h; exact mem_ge32_strLit _ ch h)
       | (rename_i h; exact mem_ge32_printJsNumber _ ch h)
       | (rename_i h; exact mem_ge32_stringifyProvenance _ ch h)
       | (rename_i h; exact mem_ge32_toStr _ ch h)
       | (rename_i h; exact absurd h (List.not_mem_nil _)))

/-- Serialized envelopes contain only printable characters. -/
theorem mem_ge32_stringifyEnvelope (e : TranslationContractEnvelope) :
    ∀ ch ∈ stringifyEnvelope e, 32 ≤ ch.toNat := by
  intro ch hch
  simp only [stringifyEnvelope, List.mem_cons, List.mem_append,
    List.mem_singleton] at hch
  casesm* _ ∨ _
  all_goals first
    | (rename_i h; rw [h]; decide)
    | (rename_i h; exact mem_ge32_strLit _ ch h)
    | (rename_i h; exact mem_ge32_stringifyContract _ ch h)
    | (rename_i h; exact absurd h (List.not_mem_nil _))

/-- Serialized envelopes contain no newline. -/
theorem stringifyEnvelope_noNl (e : TranslationContractEnvelope) :
    ∀ ch ∈ stringifyEnvelope e, ¬ ch = nlChar := by
  intro ch hch heq
  have := mem_ge32_stringifyEnvelope e ch hch
  rw [heq] at this
  revert this
  decide

-- ===========================================================================
-- Reading back an NDJSON file written line by line
-- ===========================================================================

/-- `joinLines` unfolding. -/
theorem joinLines_cons (l : Str) (ls : List Str) :
    joinLines (l :: ls) = (l ++ [nlChar]) ++ joinLines ls := by
  simp [joinLines]

/-- `split` never returns an empty list. -/
theorem splitNl_ne_nil (s : Str) : splitNl s ≠ [] := by
  induction s with
  | nil => simp [splitNl]
  | cons c r ih =>
    unfold splitNl
    split_ifs
    · simp
    · rcases h : splitNl r with _ | ⟨hd, tl⟩
      · exact absurd h ih
      · simp [h]

/-- Splitting text that starts with a newline-free line and a newline. -/
theorem splitNl_append_nl (l rest : Str) (hl : ∀ ch ∈ l, ¬ ch = nlChar) :
    splitNl (l ++ nlChar :: rest) = l :: splitNl rest := by
  induction l with
  | nil =>
    show splitNl (nlChar :: rest) = [] :: splitNl rest
    rw [splitNl.eq_def]
    simp
  | cons c l2 ih =>
    have hc : ¬ c = nlChar := hl c (by simp)
    show splitNl (c :: (l2 ++ nlChar :: rest)) = (c :: l2) :: splitNl rest
    rw [splitNl.eq_def]
    simp only [if_neg hc, ih (fun ch h => hl ch (by simp [h]))]

/-- Splitting after removing the final newline. -/
theorem splitNl_append_single_nl (t : Str) :
    splitNl (t ++ [nlChar]) = splitNl t ++ [[]] := by
  induction t with
  | nil => rfl
  | cons c t2 ih =>
    show splitNl (c :: (t2 ++ [nlChar])) = _
    unfold splitNl
    split_ifs with hc
    · rw [ih]
      rfl
    · rw [ih]
      rcases h : splitNl t2 with _ | ⟨hd, tl⟩
      · exact absurd h (splitNl_ne_nil t2)
      · simp [h]

/-- Splitting the joined lines gives the lines back, plus a final empty line. -/
theorem splitNl_joinLines (ls : List Str) (hnl : ∀ l ∈ ls, ∀ ch ∈ l, ¬ ch = nlChar) :
    splitNl (joinLines ls) = ls ++ [[]] := by
  induction ls with
  | nil => rfl
  | cons l ls2 ih =>
    rw [joinLines_cons, List.append_assoc, List.singleton_append,
      splitNl_append_nl l _ (hnl l (by simp)),
      ih (fun l2 h2 => hnl l2 (by simp [h2]))]
    rfl

/-- Trimming text of the shape `{...}` plus a final newline removes exactly that
newline. -/
theorem jsTrim_shape (A2 : Str) :
    jsTrim ((obChar :: (A2 ++ [cbChar])) ++ [nlChar]) = obChar :: (A2 ++ [cbChar]) := by
  unfold jsTrim
  have h1 : ((obChar :: (A2 ++ [cbChar])) ++ [nlChar]).dropWhile isWsChar =
      (obChar :: (A2 ++ [cbChar])) ++ [nlChar] := by
    rw [List.cons_append, List.dropWhile_cons]
    simp [show isWsChar obChar = false by decide]
  rw [h1]
  have h2 : ((obChar :: (A2 ++ [cbChar])) ++ [nlChar]).reverse =
      nlChar :: cbChar :: (A2.reverse ++ [obChar]) := by
    simp
  rw [h2, List.dropWhile_cons]
  simp only [show isWsChar nlChar = true by decide, if_true, List.dropWhile_cons,
    show isWsChar cbChar = false by decide, Bool.false_eq_true, if_false]
  simp

/-- The joined lines of `{...}`-shaped lines decompose as body plus final newline. -/
theorem joinLines_decomp (ls : List Str) (hne : ls ≠ [])
    (hshape : ∀ l ∈ ls, ∃ B, l = obChar :: (B ++ [cbChar])) :
    ∃ A2, joinLines ls = (obChar :: (A2 ++ [cbChar])) ++ [nlChar] := by
  induction ls with
  | nil => exact absurd rfl hne
  | cons l ls2 ih =>
    obtain ⟨B, rfl⟩ := hshape l (by simp)
    cases ls2 with
    | nil =>
      refine ⟨B, ?_⟩
      simp [joinLines]
    | cons l2 ls3 =>
      obtain ⟨A2, hA2⟩ := ih (by simp) (fun l3 h3 => hshape l3 (by simp [h3]))
      refine ⟨(B ++ [cbChar]) ++ nlChar :: obChar :: A2, ?_⟩
      rw [joinLines_cons, hA2]
      simp

/-- `ledgerLines` recovers exactly the written lines. -/
theorem ledgerLines_joinLines (ls : List Str)
    (hshape : ∀ l ∈ ls, ∃ B, l = obChar :: (B ++ [cbChar]))
    (hnl : ∀ l ∈ ls, ∀ ch ∈ l, ¬ ch = nlChar) :
    ledgerLines (joinLines ls) = ls := by
  cases hls : ls with
  | nil => rfl
  | cons l ls2 =>
    rw [← hls]
    obtain ⟨A2, hA⟩ := joinLines_decomp ls (by simp [hls]) hshape
    have htrim : jsTrim (joinLines ls) = obChar :: (A2 ++ [cbChar]) := by
      rw [hA, jsTrim_shape]
    have hsplit2 : splitNl (jsTrim (joinLines ls)) ++ [[]] = ls ++ [[]] := by
      rw [← splitNl_append_single_nl, htrim, ← hA,
        splitNl_joinLines ls hnl]
    have hsplit : splitNl (jsTrim (joinLines ls)) = ls :=
      List.append_inj_left' hsplit2 rfl
    unfold ledgerLines
    rw [hsplit]
    rw [List.filter_eq_self.mpr]
    intro l2 h2
    obtain ⟨B, rfl⟩ := hshape l2 h2
    simp

/-- A successful append: validation passed, one line appended, directory ensured. -/
theorem saveLedgerEntry_ok (env : TranslationContractEnvelope) (w : World)
    (h : validateEnvelope env = .ok ()) :
    saveLedgerEntry env w = (.ok (),
      { outputDirExists := true,
        ledger := some (w.ledger.getD [] ++ (stringifyEnvelope env ++ [nlChar])),
        trace := w.trace ++ [Event.ledgerWrite] }) := by
  unfold saveLedgerEntry
  rw [h]

/-- A failed validation leaves the world untouched. -/
theorem saveLedgerEntry_error (env : TranslationContractEnvelope) (w : World) (m : Str)
    (h : validateEnvelope env = .error m) :
    saveLedgerEntry env w = (.error m, w) := by
  unfold saveLedgerEntry
  rw [h]

/-- Appending a non-empty list of valid envelopes concatenates their lines. -/
theorem saveAll_ledger (es : List TranslationContractEnvelope) : ∀ w : World,
    (∀ e ∈ es, validateEnvelope e = .ok ()) → es ≠ [] →
    ∃ w2, saveAll es w = (.ok (), w2) ∧
      w2.ledger = some (w.ledger.getD [] ++ joinLines (es.map stringifyEnvelope)) := by
  induction es with
  | nil => intro w _ hne; exact absurd rfl hne
  | cons e es2 ih =>
    intro w hval _
    have hsave := saveLedgerEntry_ok e w (hval e (by simp))
    cases hes2 : es2 with
    | nil =>
      refine ⟨{ outputDirExists := true,
                ledger := some (w.ledger.getD [] ++ (stringifyEnvelope e ++ [nlChar])),
                trace := w.trace ++ [Event.ledgerWrite] }, ?_, ?_⟩
      · unfold saveAll
        rw [hsave]
        rfl
      · simp [joinLines]
    | cons e2 es3 =>
      rw [← hes2]
      obtain ⟨w3, hw3, hl3⟩ := ih
        ({ outputDirExists := true,
           ledger := some (w.ledger.getD [] ++ (stringifyEnvelope e ++ [nlChar])),
           trace := w.trace ++ [Event.ledgerWrite] })
        (fun x hx => hval x (by simp [hx])) (by simp [hes2])
      refine ⟨w3, ?_, ?_⟩
      · unfold saveAll
        rw [hsave]
        exact hw3
      · rw [hl3, List.map_cons, joinLines_cons]
        simp

/-- Parsing the serialized lines of envelopes succeeds with their encodings. -/
theorem parseLines_stringify (es : List TranslationContractEnvelope) :
    parseLines (es.map stringifyEnvelope) = .ok (es.map encodeEnvelope) := by
  induction es with
  | nil => rfl
  | cons e es2 ih =>
    show parseLines (stringifyEnvelope e :: es2.map stringifyEnvelope) = _
    unfold parseLines
    rw [jsonParse_stringifyEnvelope, ih]
    rfl

/-- The brace shape of a serialized envelope. -/
theorem stringifyEnvelope_shape (e : TranslationContractEnvelope) :
    ∃ B, stringifyEnvelope e = obChar :: (B ++ [cbChar]) :=
  ⟨strLit ("contract").data ++ ':' :: stringifyContract e.contract, rfl⟩

/-- Reading a file consisting of serialized envelope lines returns exactly their
encodings, in order. -/
theorem readLedger_joinLines (es : List TranslationContractEnvelope) :
    readLedger (some (joinLines (es.map stringifyEnvelope))) =
      .ok (es.map encodeEnvelope) := by
  unfold readLedger
  show parseLines (ledgerLines (joinLines (es.map stringifyEnvelope))) = _
  rw [ledgerLines_joinLines _ ?_ ?_, parseLines_stringify]
  · intro l hl
    rcases List.mem_map.mp hl with ⟨e, _, rfl⟩
    exact stringifyEnvelope_shape e
  · intro l hl
    rcases List.mem_map.mp hl with ⟨e, _, rfl⟩
    exact stringifyEnvelope_noNl e

/-- A line that fails to parse makes the whole read fail. -/
theorem parseLines_error (ls : List Str) (h : ∃ l ∈ ls, jsonParse l = none) :
    parseLines ls = .error jsonErrMsg := by
  induction ls with
  | nil => simp at h
  | cons l ls2 ih =>
    unfold parseLines
    rcases hl : jsonParse l with _ | v
    · rfl
    · obtain ⟨l2, hmem, hnone⟩ := h
      rcases List.mem_cons.mp hmem with rfl | hmem2
      · rw [hl] at hnone
        exact absurd hnone (by simp)
      · rw [ih ⟨l2, hmem2, hnone⟩]

/-- When every line parses, the read returns every parse, in order. -/
theorem parseLines_all_ok (ls : List Str) (h : ∀ l ∈ ls, (jsonParse l).isSome = true) :
    parseLines ls = .ok (ls.filterMap jsonParse) := by
  induction ls with
  | nil => rfl
  | cons l ls2 ih =>
    unfold parseLines
    rcases hl : jsonParse l with _ | v
    · have := h l (by simp)
      rw [hl] at this
      simp at this
    · rw [ih (fun l2 h2 => h l2 (by simp [h2]))]
      simp [List.filterMap_cons, hl]

-- ===========================================================================
-- Shape of generated contract ids
-- ===========================================================================

/-- Hex serialization doubles the byte count. -/
theorem flatMap_byteToHex_length (bs : List Nat) :
    (bs.flatMap byteToHex).length = 2 * bs.length := by
  induction bs with
  | nil => rfl
  | cons b bs2 ih =>
    rw [List.flatMap_cons, List.length_append, ih]
    show 2 + 2 * bs2.length = 2 * (bs2.length + 1)
    omega

/-- A SHA-256 digest is 32 bytes. -/
theorem sha256Bytes_length (msg : List Nat) : (sha256Bytes msg).length = 32 := by
  simp [sha256Bytes, digestBytes, wordToBytes]

/-- A SHA-256 hex digest is 64 characters. -/
theorem generateHash_length (s : Str) : (generateHash s).length = 64 := by
  unfold generateHash
  rw [flatMap_byteToHex_length, sha256Bytes_length]

/-- Hex digit characters are printable ASCII. -/
theorem hexDigitChar_printable (n : Nat) :
    32 < (hexDigitChar n).toNat ∧ (hexDigitChar n).toNat < 127 := by
  unfold hexDigitChar
  split <;> decide

/-- Every character of a hex digest is printable ASCII. -/
theorem generateHash_printable (s : Str) :
    ∀ ch ∈ generateHash s, 32 < ch.toNat ∧ ch.toNat < 127 := by
  intro ch hch
  rcases List.mem_flatMap.mp hch with ⟨b, _, hb⟩
  rcases List.mem_cons.mp hb with rfl | hb2
  · exact hexDigitChar_printable _
  · rcases List.mem_singleton.mp hb2 with rfl
    exact hexDigitChar_printable _

-- ===========================================================================
-- Pipeline dispatch
-- ===========================================================================

/-- The pipeline when the provider fails: the error propagates unchanged and the
only new event is the provider call. -/
theorem translateRequest_providerError (provider : TranslationProvider)
    (input : TranslationRequestInput) (clk : Clock) (w : World) (m : Str)
    (hp : provider.translate input.source_language input.target_language
      input.source_text = .error m) :
    translateRequest provider input clk w =
      (.error m, { w with trace := w.trace ++ [Event.providerCall] }) := by
  unfold translateRequest
  rw [hp]

/-- The pipeline when the provider succeeds: the built envelope goes to the
ledger-append gate. -/
theorem translateRequest_providerOk (provider : TranslationProvider)
    (input : TranslationRequestInput) (clk : Clock) (w : World) (tt : Str)
    (conf : JsNumber)
    (hp : provider.translate input.source_language input.target_language
      input.source_text = .ok (tt, conf)) :
    translateRequest provider input clk w =
      (match saveLedgerEntry { contract := Translate.buildContract input tt conf clk }
          { outputDirExists := w.outputDirExists, ledger := w.ledger,
            trace := (w.trace ++ [Event.providerCall]) ++ [Event.contractBuilt] } with
       | (.error e, w3) => (.error e, w3)
       | (.ok _, w3) =>
          (.ok ({ contract := Translate.buildContract input tt conf clk } :
            TranslationContractEnvelope), w3)) := by
  unfold translateRequest
  rw [hp]

/-- The pipeline envelope for a human/hybrid request without a translator fails
the ledger validation gate. -/
theorem validateEnvelope_built_noTranslator (input : TranslationRequestInput)
    (tt : Str) (conf : JsNumber) (clk : Clock)
    (hm : input.method = .human ∨ input.method = .hybrid)
    (ht : optStrTruthy input.translator = false) :
    validateEnvelope { contract := Translate.buildContract input tt conf clk } =
      .error translatorRequiredMsg := by
  rw [validateEnvelope_eq]
  rw [if_pos]
  have h1 : (Translate.buildContract input tt conf clk).method = input.method := rfl
  have h2 : (Translate.buildContract input tt conf clk).translator = input.translator := rfl
  rcases hm with hm | hm <;> simp [h1, h2, hm, ht]

-- ===========================================================================
-- Claims
-- ===========================================================================

/-- C1 (counterexample): for the concrete human-method request without a
translator, the pipeline does fail and leaves the ledger untouched, but the
provider's translate operation HAS been invoked — refuting the claim that the
failure happens before any provider call. -/
theorem claim_C1_counterexample :
    (translateRequest (mockProvider MockProviderConfig.base) reqHuman clk0 w0).1 =
      .error translatorRequiredMsg ∧
    Event.providerCall ∈
      (translateRequest (mockProvider MockProviderConfig.base) reqHuman clk0 w0).2.trace ∧
    (translateRequest (mockProvider MockProviderConfig.base) reqHuman clk0 w0).2.ledger =
      w0.ledger := by
  refine ⟨by decide, by decide, by decide⟩

/-- C1 (amended): for every human/hybrid request without a translator, the
pipeline fails before any ledger write — the ledger file and output directory
are unchanged and no write event occurs — though the provider is invoked first
(validation happens at the ledger-append gate, not before the provider call). -/
theorem claim_C1_amended (provider : TranslationProvider)
    (input : TranslationRequestInput) (clk : Clock) (w : World)
    (hm : input.method = .human ∨ input.method = .hybrid)
    (ht : optStrTruthy input.translator = false) :
    (∃ m, (translateRequest provider input clk w).1 = .error m) ∧
    (translateRequest provider input clk w).2.ledger = w.ledger ∧
    (translateRequest provider input clk w).2.outputDirExists = w.outputDirExists ∧
    Event.ledgerWrite ∉ (translateRequest provider input clk w).2.trace.drop
      w.trace.length := by
  rcases hp : provider.translate input.source_language input.target_language
    input.source_text with m | ⟨tt, conf⟩
  · rw [translateRequest_providerError provider input clk w m hp]
    refine ⟨⟨m, rfl⟩, rfl, rfl, ?_⟩
    show Event.ledgerWrite ∉ (w.trace ++ [Event.providerCall]).drop w.trace.length
    rw [List.drop_left]
    decide
  · rw [translateRequest_providerOk provider input clk w tt conf hp,
      saveLedgerEntry_error _ _ _ (validateEnvelope_built_noTranslator input tt conf clk hm ht)]
    refine ⟨⟨translatorRequiredMsg, rfl⟩, rfl, rfl, ?_⟩
    show Event.ledgerWrite ∉
      ((w.trace ++ [Event.providerCall]) ++ [Event.contractBuilt]).drop w.trace.length
    rw [List.append_assoc, List.drop_left]
    decide

/-- C1 (witness): the amended claim at the concrete human-method request. -/
theorem claim_C1_witness :
    (reqHuman.method = .human ∨ reqHuman.method = .hybrid) ∧
    optStrTruthy reqHuman.translator = false ∧
    ((∃ m, (translateRequest (mockProvider MockProviderConfig.base) reqHuman clk0 w0).1 =
        .error m) ∧
      (translateRequest (mockProvider MockProviderConfig.base) reqHuman clk0 w0).2.ledger =
        w0.ledger ∧
      (translateRequest (mockProvider MockProviderConfig.base) reqHuman
        clk0 w0).2.outputDirExists = w0.outputDirExists ∧
      Event.ledgerWrite ∉ (translateRequest (mockProvider MockProviderConfig.base) reqHuman
        clk0 w0).2.trace.drop w0.trace.length) :=
  ⟨Or.inl rfl, by decide, claim_C1_amended _ _ _ _ (Or.inl rfl) (by decide)⟩

/-- C2: the ledger append gate (`saveLedgerEntry` in `ledger.ts`) validates
before touching storage: an invalid envelope fails with the validation error and
the whole world — ledger bytes included — is unchanged; and a successful append
implies the envelope was valid. -/
theorem claim_C2 (env : TranslationContractEnvelope) (w : World) (m : Str) :
    (validateEnvelope env = .error m → saveLedgerEntry env w = (.error m, w)) ∧
    ((saveLedgerEntry env w).1 = .ok () → validateEnvelope env = .ok ()) := by
  constructor
  · exact saveLedgerEntry_error env w m
  · intro h
    rcases hv : validateEnvelope env with m2 | u
    · rw [saveLedgerEntry_error env w m2 hv] at h
      exact absurd h (by simp)
    · cases u
      rfl

/-- C2 (witness): a confidence-1.5 envelope is rejected and the world is
byte-for-byte unchanged. -/
theorem claim_C2_witness :
    validateEnvelope envBadConf = .error confidenceRangeMsg ∧
    saveLedgerEntry envBadConf w0 = (.error confidenceRangeMsg, w0) :=
  ⟨by decide, (claim_C2 envBadConf w0 confidenceRangeMsg).1 (by decide)⟩

/-- C3 (code bug): `buildContract` in `contract.ts` is NOT error-free — it calls
`validateContract` before returning, so at the repository's own test input
(`confidence: 1.5`, from the `validateContract` test in the contract test suite)
the builder itself throws the confidence-range error instead of returning the
malformed contract for later validation, contradicting that test and §4.2. -/
theorem claim_C3_eval :
    ContractTs.buildContract p15 clk0 = .error confidenceRangeMsg := by decide

/-- C4 (counterexample): at the concrete request (workflow `wf`, flow `fl`,
`Date.now() = 0`) the id produced by the pipeline differs from the
spec's formula — the hash of (source_text, target_language, workflow, flow)
plus the nonce; moreover, changing only the workflow does not change the
pipeline's id at all, while the spec formula does change. -/
theorem claim_C4_counterexample :
    ¬ (pipelineIdAt reqWf = specContractIdFormula reqWf clk0.nowMs) ∧
    pipelineIdAt reqWf = pipelineIdAt reqWf2 ∧
    ¬ (specContractIdFormula reqWf clk0.nowMs =
        specContractIdFormula reqWf2 clk0.nowMs) := by
  refine ⟨by decide, by decide, by decide⟩

/-- C4 (amended): the pipeline's contract id is derived by hashing the
composition of (source_language, target_language, source_text) — not workflow
and flow — plus the `Date.now()` nonce, and equals `"trans_"` followed by the
first six hex characters of that SHA-256: a fixed-length (12 characters)
printable-ASCII identifier. -/
theorem claim_C4_amended (input : TranslationRequestInput) (tt : Str)
    (conf : JsNumber) (clk : Clock) :
    (Translate.buildContract input tt conf clk).id =
      generateContractId (input.source_language ++ usChar :: input.target_language ++
        usChar :: input.source_text) clk.nowMs ∧
    (Translate.buildContract input tt conf clk).id =
      ("trans_").data ++ (generateHash ((input.source_language ++ usChar ::
        input.target_language ++ usChar :: input.source_text) ++
          usChar :: printNat clk.nowMs)).take 6 ∧
    (Translate.buildContract input tt conf clk).id.length = 12 ∧
    (∀ ch ∈ (Translate.buildContract input tt conf clk).id,
      32 < ch.toNat ∧ ch.toNat < 127) := by
  refine ⟨rfl, rfl, ?_, ?_⟩
  · have h : (Translate.buildContract input tt conf clk).id =
        ("trans_").data ++ (generateHash ((input.source_language ++ usChar ::
          input.target_language ++ usChar :: input.source_text) ++
            usChar :: printNat clk.nowMs)).take 6 := rfl
    rw [h, List.length_append, List.length_take, generateHash_length]
    rfl
  · intro ch hch
    have h : (Translate.buildContract input tt conf clk).id =
        ("trans_").data ++ (generateHash ((input.source_language ++ usChar ::
          input.target_language ++ usChar :: input.source_text) ++
            usChar :: printNat clk.nowMs)).take 6 := rfl
    rw [h] at hch
    rcases List.mem_append.mp hch with h2 | h2
    · have hpre : ∀ c ∈ ("trans_").data, 32 < c.toNat ∧ c.toNat < 127 := by decide
      exact hpre ch h2
    · exact generateHash_printable _ ch (List.take_subset 6 _ h2)

/-- C5: appending valid envelopes to an empty or absent ledger and reading the
file back yields exactly the JSON encodings of those envelopes, in order, one
per line — nothing lost, nothing reordered — and each encoding decodes back to
the original envelope. -/
theorem claim_C5 (es : List TranslationContractEnvelope) (w : World)
    (hval : ∀ e ∈ es, validateEnvelope e = .ok ())
    (hled : w.ledger = none ∨ w.ledger = some []) :
    ∃ w2, saveAll es w = (.ok (), w2) ∧
      readLedger w2.ledger = .ok (es.map encodeEnvelope) ∧
      (es.map encodeEnvelope).length = es.length ∧
      ∀ e ∈ es, decodeEnvelope (encodeEnvelope e) = some e := by
  by_cases hne : es = []
  · subst hne
    refine ⟨w, rfl, ?_, rfl, by simp⟩
    rcases hled with h | h <;> (rw [h]; rfl)
  · obtain ⟨w2, hw2, hl2⟩ := saveAll_ledger es w hval hne
    refine ⟨w2, hw2, ?_, by simp, fun e2 _ => decode_encodeEnvelope e2⟩
    have hget : w.ledger.getD [] = [] := by
      rcases hled with h | h <;> (rw [h]; rfl)
    rw [hl2, hget, List.nil_append]
    exact readLedger_joinLines es

/-- C5 (witness): two concrete valid envelopes, appended to the absent ledger,
read back exactly. -/
theorem claim_C5_witness :
    (∀ e ∈ [env0, env1], validateEnvelope e = .ok ()) ∧
    (w0.ledger = none ∨ w0.ledger = some []) ∧
    ∃ w2, saveAll [env0, env1] w0 = (.ok (), w2) ∧
      readLedger w2.ledger = .ok ([env0, env1].map encodeEnvelope) ∧
      ([env0, env1].map encodeEnvelope).length = [env0, env1].length ∧
      ∀ e ∈ [env0, env1], decodeEnvelope (encodeEnvelope e) = some e :=
  ⟨by decide, Or.inl rfl, claim_C5 [env0, env1] w0 (by decide) (Or.inl rfl)⟩

/-- C6: when the provider fails, the pipeline returns that very error message
unchanged; no contract is built, nothing reaches the ledger, and the ledger
bytes are untouched. -/
theorem claim_C6 (provider : TranslationProvider) (input : TranslationRequestInput)
    (clk : Clock) (w : World) (m : Str)
    (hp : provider.translate input.source_language input.target_language
      input.source_text = .error m) :
    translateRequest provider input clk w =
      (.error m, { w with trace := w.trace ++ [Event.providerCall] }) ∧
    (translateRequest provider input clk w).2.ledger = w.ledger ∧
    Event.contractBuilt ∉ (translateRequest provider input clk w).2.trace.drop
      w.trace.length ∧
    Event.ledgerWrite ∉ (translateRequest provider input clk w).2.trace.drop
      w.trace.length := by
  rw [translateRequest_providerError provider input clk w m hp]
  refine ⟨rfl, rfl, ?_, ?_⟩
  · show Event.contractBuilt ∉ (w.trace ++ [Event.providerCall]).drop w.trace.length
    rw [List.drop_left]
    decide
  · show Event.ledgerWrite ∉ (w.trace ++ [Event.providerCall]).drop w.trace.length
    rw [List.drop_left]
    decide

/-- C6 (witness): the mock provider configured to fail, at the concrete test
request. -/
theorem claim_C6_witness :
    (mockProvider ⟨true, ⟨false, 0, [9, 5]⟩⟩).translate req0.source_language
        req0.target_language req0.source_text =
      .error (("Mock translation failed (simulated)").data) ∧
    (translateRequest (mockProvider ⟨true, ⟨false, 0, [9, 5]⟩⟩) req0 clk0 w0 =
      (.error (("Mock translation failed (simulated)").data),
        { w0 with trace := w0.trace ++ [Event.providerCall] }) ∧
    (translateRequest (mockProvider ⟨true, ⟨false, 0, [9, 5]⟩⟩) req0 clk0 w0).2.ledger =
      w0.ledger ∧
    Event.contractBuilt ∉ (translateRequest (mockProvider ⟨true, ⟨false, 0, [9, 5]⟩⟩)
      req0 clk0 w0).2.trace.drop w0.trace.length ∧
    Event.ledgerWrite ∉ (translateRequest (mockProvider ⟨true, ⟨false, 0, [9, 5]⟩⟩)
      req0 clk0 w0).2.trace.drop w0.trace.length) :=
  ⟨by decide, claim_C6 (mockProvider ⟨true, ⟨false, 0, [9, 5]⟩⟩) req0 clk0 w0
    (("Mock translation failed (simulated)").data) (by decide)⟩

/-- C7: every typed envelope passes the structural schema layer, so validation
reduces to the two business rules: success is exactly confidence within [0, 1]
together with a truthy translator whenever the method is human or hybrid; a
human/hybrid envelope without a truthy translator fails with the translator
message; an envelope passing the translator rule but with confidence outside
[0, 1] fails with the range message; and `validateContract` in `contract.ts`
agrees with `validateEnvelope` in `ledger.ts` on every envelope. -/
theorem claim_C7 (env : TranslationContractEnvelope) :
    schemaOkEnvelope (encodeEnvelope env) = true ∧
    (validateEnvelope env = .ok () ↔
      (0 ≤ env.contract.confidence.toRat ∧ env.contract.confidence.toRat ≤ 1 ∧
        ((env.contract.method = .human ∨ env.contract.method = .hybrid) →
          optStrTruthy env.contract.translator = true))) ∧
    ((env.contract.method = .human ∨ env.contract.method = .hybrid) →
      optStrTruthy env.contract.translator = false →
      validateEnvelope env = .error translatorRequiredMsg) ∧
    (((env.contract.method = .human ∨ env.contract.method = .hybrid) →
        optStrTruthy env.contract.translator = true) →
      (env.contract.confidence.toRat < 0 ∨ 1 < env.contract.confidence.toRat) →
      validateEnvelope env = .error confidenceRangeMsg) ∧
    ContractTs.validateContract env.contract = validateEnvelope env := by
  have hlt := ltZero_iff_toRat env.contract.confidence
  have hgt := gtOne_iff_toRat env.contract.confidence
  refine ⟨schemaOk_encodeEnvelope env, ?_, ?_, ?_, ?_⟩
  · rw [validateEnvelope_eq]
    split_ifs with h1 h2
    · constructor
      · intro h
        exact absurd h (by simp)
      · rintro ⟨_, _, htr⟩
        simp only [Bool.and_eq_true, Bool.or_eq_true, decide_eq_true_eq,
          Bool.not_eq_true'] at h1
        exact absurd (htr h1.1) (by simp [h1.2])
    · constructor
      · intro h
        exact absurd h (by simp)
      · rintro ⟨hc1, hc2, _⟩
        simp only [Bool.or_eq_true] at h2
        rcases h2 with h | h
        · exact absurd (hlt.mp h) (by linarith)
        · exact absurd (hgt.mp h) (by linarith)
    · constructor
      · intro _
        refine ⟨?_, ?_, ?_⟩
        · by_contra hneg
          push_neg at hneg
          exact h2 (by simp [Bool.or_eq_true, hlt.mpr hneg])
        · by_contra hneg
          push_neg at hneg
          exact h2 (by simp [Bool.or_eq_true, hgt.mpr hneg])
        · intro hm
          by_contra htr
          have htr2 : optStrTruthy env.contract.translator = false := by
            rcases h : optStrTruthy env.contract.translator with _ | _
            · rfl
            · exact absurd h htr
          apply h1
          rcases hm with hm | hm <;> simp [hm, htr2]
      · intro _
        rfl
  · intro hm htr
    rw [validateEnvelope_eq, if_pos]
    rcases hm with hm | hm <;> simp [hm, htr]
  · intro htr hrange
    rw [validateEnvelope_eq]
    split_ifs with h1 h2
    · exfalso
      simp only [Bool.and_eq_true, Bool.or_eq_true, decide_eq_true_eq,
        Bool.not_eq_true'] at h1
      exact absurd (htr h1.1) (by simp [h1.2])
    · rfl
    · exfalso
      apply h2
      simp only [Bool.or_eq_true]
      rcases hrange with h | h
      · exact Or.inl (hlt.mpr h)
      · exact Or.inr (hgt.mpr h)
  · rw [validateContract_eq, validateEnvelope_eq]

/-- C7 (witness): the rules at concrete envelopes — the translator rule fires on
a human envelope without a translator, the range rule fires on confidence 1.5,
and both validators agree on the valid human envelope. -/
theorem claim_C7_witness :
    validateEnvelope envBadTr = .error translatorRequiredMsg ∧
    validateEnvelope envBadConf = .error confidenceRangeMsg ∧
    ContractTs.validateContract env1.contract = validateEnvelope env1 := by
  refine ⟨?_, ?_, (claim_C7 env1).2.2.2.2⟩
  · exact (claim_C7 envBadTr).2.2.1 (Or.inl rfl) (by decide)
  · refine (claim_C7 envBadConf).2.2.2.1 ?_ (Or.inr ((gtOne_iff_toRat _).mp (by decide)))
    intro hm
    rcases hm with hm | hm <;> exact absurd hm (by decide)

/-- C8: a successful `saveLedgerEntry` on a valid envelope ensures the output
directory, appends exactly one line — the serialized envelope followed by one
newline — to the existing ledger bytes, and records one write; the serialized
envelope itself contains no newline, so the file stays one JSON value per
line. -/
theorem claim_C8 (env : TranslationContractEnvelope) (w : World)
    (h : validateEnvelope env = .ok ()) :
    saveLedgerEntry env w = (.ok (),
      { outputDirExists := true,
        ledger := some (w.ledger.getD [] ++ (stringifyEnvelope env ++ [nlChar])),
        trace := w.trace ++ [Event.ledgerWrite] }) ∧
    ∀ ch ∈ stringifyEnvelope env, ¬ ch = nlChar :=
  ⟨saveLedgerEntry_ok env w h, stringifyEnvelope_noNl env⟩

/-- C8 (witness): the valid machine envelope appended to the initial world. -/
theorem claim_C8_witness :
    validateEnvelope env0 = .ok () ∧ (saveLedgerEntry env0 w0).1 = .ok () := by
  refine ⟨by decide, ?_⟩
  rw [(claim_C8 env0 w0 (by decide)).1]

/-- C9: reading an absent ledger file yields the empty list (the `NotFound`
catch), while a ledger file with an unparseable non-empty line makes the whole
read fail with the JSON syntax error. -/
theorem claim_C9 (content l : Str) (hmem : l ∈ ledgerLines content)
    (hbad : (jsonParse l).isNone = true) :
    readLedger none = .ok [] ∧
    readLedger (some content) = .error jsonErrMsg := by
  refine ⟨rfl, ?_⟩
  show parseLines (ledgerLines content) = _
  exact parseLines_error _ ⟨l, hmem, Option.isNone_iff_eq_none.mp hbad⟩

/-- C9 (witness): the single-line file `garbage` fails wholesale. -/
theorem claim_C9_witness :
    (("garbage").data ∈ ledgerLines garbageContent) ∧
    ((jsonParse (("garbage").data)).isNone = true) ∧
    (readLedger none = .ok [] ∧ readLedger (some garbageContent) = .error jsonErrMsg) :=
  ⟨by decide, by decide,
    claim_C9 garbageContent (("garbage").data) (by decide) (by decide)⟩

/-- Auxiliary: when every line parses, `filterMap` drops nothing. -/
theorem filterMap_length_all_some (ls : List Str)
    (h : ∀ l ∈ ls, (jsonParse l).isSome = true) :
    (ls.filterMap jsonParse).length = ls.length := by
  induction ls with
  | nil => rfl
  | cons l ls2 ih =>
    rcases hl : jsonParse l with _ | v
    · have := h l (by simp)
      rw [hl] at this
      simp at this
    · simp [List.filterMap_cons, hl, ih (fun l2 h2 => h l2 (by simp [h2]))]

/-- C10: `readLedger` applies no schema or business validation to what it reads
back: whenever every non-empty line of the file parses as JSON, the read
succeeds and returns every parsed value — one per line, however far from a valid
contract envelope it may be. -/
theorem claim_C10 (content : Str)
    (h : ∀ l ∈ ledgerLines content, (jsonParse l).isSome = true) :
    readLedger (some content) = .ok ((ledgerLines content).filterMap jsonParse) ∧
    ((ledgerLines content).filterMap jsonParse).length =
      (ledgerLines content).length := by
  constructor
  · show parseLines (ledgerLines content) = _
    exact parseLines_all_ok _ h
  · exact filterMap_length_all_some _ h

/-- C10 (witness): the file `\x7b\x7d` parses to one value that is nowhere near
a schema-valid envelope, yet `readLedger` returns it happily. -/
theorem claim_C10_witness :
    (∀ l ∈ ledgerLines emptyObjContent, (jsonParse l).isSome = true) ∧
    (readLedger (some emptyObjContent) =
        .ok ((ledgerLines emptyObjContent).filterMap jsonParse) ∧
      ((ledgerLines emptyObjContent).filterMap jsonParse).length =
        (ledgerLines emptyObjContent).length) ∧
    ((ledgerLines emptyObjContent).filterMap jsonParse).all
      (fun v => !(schemaOkEnvelope v)) = true :=
  ⟨by decide, claim_C10 emptyObjContent (by decide), by decide⟩
